import Mathlib

/-!
Verification development for the `ri-event-log` repository: a shallow
embedding, in Lean 4, of the event log's hashing, chain-linking, write
pipeline, query engine, snapshot manager, archive codec and pressure
classifier, together with theorems settling the specification's claims.

Modelling conventions:
* JavaScript numbers are modelled as exact rationals (`ℚ`); all byte-level
  arithmetic is `Nat` with explicit `% 2 ^ w` where overflow matters.
* Platform primitives the source delegates to — `Date.parse` validity,
  deflate compression and decompression — are taken as function parameters
  of the models; SHA-256 and UTF-8 are implemented in full.
* `id` comparison is modelled as code-point order (the source's
  `localeCompare` agrees with it on the ASCII identifiers the library
  generates).
* Asynchronous, per-space-serialized execution is modelled by its observable
  effect: each write is an atomic step on the store state.
-/

set_option maxRecDepth 10000

namespace RiLog

/-! ### JSON value model

`Json` models the JSON-compatible trees the library serializes and hashes.
Arrays and objects carry their own list types so that the serializers below
are mutually structural (hence kernel-computable). -/

mutual

inductive Json where
  | null : Json
  | bool (b : Bool) : Json
  | num (q : ℚ) : Json
  | str (s : String) : Json
  | arr (items : JsonArr) : Json
  | obj (fields : JsonObj) : Json
  deriving DecidableEq

inductive JsonArr where
  | nil : JsonArr
  | cons (hd : Json) (tl : JsonArr) : JsonArr
  deriving DecidableEq

inductive JsonObj where
  | nil : JsonObj
  | cons (key : String) (value : Json) (tl : JsonObj) : JsonObj
  deriving DecidableEq

end

/-- Build a `JsonArr` from a list. -/
def JsonArr.ofList : List Json → JsonArr
  | [] => .nil
  | x :: xs => .cons x (JsonArr.ofList xs)

/-- Build a `JsonObj` from an association list (in insertion order). -/
def JsonObj.ofList : List (String × Json) → JsonObj
  | [] => .nil
  | (k, v) :: xs => .cons k v (JsonObj.ofList xs)

/-- Set a key on a `JsonObj` the way JavaScript property assignment does:
overwrite in place if the key exists, append otherwise. -/
def JsonObj.set : JsonObj → String → Json → JsonObj
  | .nil, k, v => .cons k v .nil
  | .cons k' v' tl, k, v =>
    if k = k' then .cons k' v tl else .cons k' v' (JsonObj.set tl k v)

/-! ### Hex digits and JSON string escaping -/

/-- Lowercase hexadecimal digit characters. -/
def hexChars : List Char := "0123456789abcdef".data

/-- Two lowercase hex characters for a byte, as `b.toString(16).padStart(2, '0')`
produces for bytes. -/
def byteToHex (b : Nat) : List Char :=
  [hexChars.getD (b / 16 % 16) '0', hexChars.getD (b % 16) '0']

/-- `JSON.stringify` escaping for a single character. -/
def escapeChar (c : Char) : List Char :=
  if c = '"' then ['\\', '"']
  else if c = '\\' then ['\\', '\\']
  else if c.toNat = 8 then ['\\', 'b']
  else if c.toNat = 9 then ['\\', 't']
  else if c.toNat = 10 then ['\\', 'n']
  else if c.toNat = 12 then ['\\', 'f']
  else if c.toNat = 13 then ['\\', 'r']
  else if c.toNat < 32 then '\\' :: 'u' :: '0' :: '0' :: byteToHex c.toNat
  else [c]

/-- A JSON string literal: quotes around the escaped characters. -/
def quoteString (s : String) : String :=
  "\"" ++ String.mk (s.data.flatMap escapeChar) ++ "\""

/-- Decimal digits of the fractional part `num / den`, by long division.
The fuel bound (deeper than any binary fraction a JS number can carry)
makes the recursion structural. -/
def fracDigits (fuel : Nat) (num den : Nat) : List Char :=
  match fuel with
  | 0 => []
  | fuel + 1 =>
    if num = 0 then []
    else hexChars.getD (num * 10 / den % 16) '0' :: fracDigits fuel (num * 10 % den) den

/-- Decimal rendering of the rational model of a JS number: integers print
plainly, finite decimals exactly with no trailing zeros — as `JSON.stringify`
prints the integral and dyadic values the library serializes. -/
def ratToDecimalString (q : ℚ) : String :=
  if q.den = 1 then toString q.num
  else
    (if q < 0 then "-" else "") ++ toString (q.num.natAbs / q.den) ++ "." ++
      String.mk (fracDigits 1100 (q.num.natAbs % q.den) q.den)

/-! ### Serializers

The source keeps two serializers apart: `deterministicSerialize`
(`JSON.stringify` with a replacer that sorts each object's keys — modelled
as a deep key-sort followed by a plain stringify) for event hashing, and
plain `JSON.stringify` (insertion order) for archive bodies. -/

/-- Insert a field into a key-sorted `JsonObj` (string code-point order,
as `Object.keys(...).sort()`). -/
def objInsert (k : String) (v : Json) : JsonObj → JsonObj
  | .nil => .cons k v .nil
  | .cons k' v' tl =>
    if k ≤ k' then .cons k v (.cons k' v' tl) else .cons k' v' (objInsert k v tl)

/-- Sort a `JsonObj`'s fields by key. -/
def sortObjFields : JsonObj → JsonObj
  | .nil => .nil
  | .cons k v tl => objInsert k v (sortObjFields tl)

mutual

/-- Recursively sort every object's keys, at every nesting depth — the
effect of `deterministicSerialize`'s replacer. -/
def sortJsonDeep : Json → Json
  | .null => .null
  | .bool b => .bool b
  | .num q => .num q
  | .str s => .str s
  | .arr xs => .arr (sortJsonArrDeep xs)
  | .obj fs => .obj (sortObjFields (sortJsonObjDeep fs))

def sortJsonArrDeep : JsonArr → JsonArr
  | .nil => .nil
  | .cons x tl => .cons (sortJsonDeep x) (sortJsonArrDeep tl)

def sortJsonObjDeep : JsonObj → JsonObj
  | .nil => .nil
  | .cons k v tl => .cons k (sortJsonDeep v) (sortJsonObjDeep tl)

end

mutual

/-- Plain `JSON.stringify`: no whitespace, fields in their stored order. -/
def stringifyJson : Json → String
  | .null => "null"
  | .bool true => "true"
  | .bool false => "false"
  | .num q => ratToDecimalString q
  | .str s => quoteString s
  | .arr xs => "[" ++ stringifyArrItems xs ++ "]"
  | .obj fs => "\x7b" ++ stringifyObjItems fs ++ "\x7d"

def stringifyArrItems : JsonArr → String
  | .nil => ""
  | .cons x .nil => stringifyJson x
  | .cons x tl => stringifyJson x ++ "," ++ stringifyArrItems tl

def stringifyObjItems : JsonObj → String
  | .nil => ""
  | .cons k v .nil => quoteString k ++ ":" ++ stringifyJson v
  | .cons k v tl => quoteString k ++ ":" ++ stringifyJson v ++ "," ++ stringifyObjItems tl

end

/-- `deterministicSerialize` from `src/hash-chain/hash.ts`: `JSON.stringify`
with a replacer that sorts object keys alphabetically at all levels. -/
def deterministicSerialize (j : Json) : String :=
  stringifyJson (sortJsonDeep j)

/-! ### UTF-8 -/

/-- UTF-8 encoding of one character. -/
def utf8EncodeChar (c : Char) : List Nat :=
  let n := c.toNat
  if n < 0x80 then [n]
  else if n < 0x800 then [0xC0 ||| (n >>> 6), 0x80 ||| (n &&& 0x3F)]
  else if n < 0x10000 then
    [0xE0 ||| (n >>> 12), 0x80 ||| ((n >>> 6) &&& 0x3F), 0x80 ||| (n &&& 0x3F)]
  else
    [0xF0 ||| (n >>> 18), 0x80 ||| ((n >>> 12) &&& 0x3F),
     0x80 ||| ((n >>> 6) &&& 0x3F), 0x80 ||| (n &&& 0x3F)]

/-- UTF-8 bytes of a string, as `TextEncoder.encode`. -/
def utf8Bytes (s : String) : List Nat :=
  s.data.flatMap utf8EncodeChar

/-- One step of UTF-8 decoding: the decoded character (U+FFFD on a
malformed sequence, as `TextDecoder` substitutes) and the rest of the input. -/
def utf8DecodeStep : Nat → List Nat → Char × List Nat
  | b, rest =>
    if b < 0x80 then (Char.ofNat b, rest)
    else if b < 0xC2 then ('�', rest)
    else if b < 0xE0 then
      match rest with
      | b2 :: rest' =>
        if 0x80 ≤ b2 ∧ b2 < 0xC0 then
          (Char.ofNat (((b - 0xC0) <<< 6) + (b2 - 0x80)), rest')
        else ('�', rest)
      | [] => ('�', rest)
    else if b < 0xF0 then
      match rest with
      | b2 :: b3 :: rest' =>
        if 0x80 ≤ b2 ∧ b2 < 0xC0 ∧ 0x80 ≤ b3 ∧ b3 < 0xC0 then
          (Char.ofNat (((b - 0xE0) <<< 12) + ((b2 - 0x80) <<< 6) + (b3 - 0x80)), rest')
        else ('�', rest)
      | _ => ('�', rest)
    else if b < 0xF5 then
      match rest with
      | b2 :: b3 :: b4 :: rest' =>
        if 0x80 ≤ b2 ∧ b2 < 0xC0 ∧ 0x80 ≤ b3 ∧ b3 < 0xC0 ∧ 0x80 ≤ b4 ∧ b4 < 0xC0 then
          (Char.ofNat
            (((b - 0xF0) <<< 18) + ((b2 - 0x80) <<< 12) + ((b3 - 0x80) <<< 6) + (b4 - 0x80)),
           rest')
        else ('�', rest)
      | _ => ('�', rest)
    else ('�', rest)

/-- UTF-8 decoding of a byte list, with fuel for structural recursion
(one unit per decoded character suffices). -/
def utf8DecodeAux (fuel : Nat) (bytes : List Nat) : List Char :=
  match fuel, bytes with
  | 0, _ => []
  | _, [] => []
  | fuel + 1, b :: rest =>
    let (c, rest') := utf8DecodeStep b rest
    c :: utf8DecodeAux fuel rest'

/-- `TextDecoder.decode` for UTF-8. -/
def textDecode (bytes : List Nat) : String :=
  String.mk (utf8DecodeAux bytes.length bytes)

/-! ### SHA-256

A complete implementation of FIPS 180-4 SHA-256 over byte lists; all word
arithmetic is `Nat` reduced mod `2 ^ 32`. The source obtains the same
digests from the platform's `crypto.subtle.digest('SHA-256', …)`. -/

/-- Truncate to a 32-bit word. -/
def w32 (n : Nat) : Nat := n % 4294967296

/-- Right-rotation of a 32-bit word. -/
def rotr32 (x n : Nat) : Nat := w32 ((x >>> n) ||| (x <<< (32 - n)))

/-- The SHA-256 round constants. -/
def shaK : List Nat :=
  [1116352408, 1899447441, 3049323471, 3921009573, 961987163, 1508970993, 2453635748, 2870763221,
   3624381080, 310598401, 607225278, 1426881987, 1925078388, 2162078206, 2614888103, 3248222580,
   3835390401, 4022224774, 264347078, 604807628, 770255983, 1249150122, 1555081692, 1996064986,
   2554220882, 2821834349, 2952996808, 3210313671, 3336571891, 3584528711, 113926993, 338241895,
   666307205, 773529912, 1294757372, 1396182291, 1695183700, 1986661051, 2177026350, 2456956037,
   2730485921, 2820302411, 3259730800, 3345764771, 3516065817, 3600352804, 4094571909, 275423344,
   430227734, 506948616, 659060556, 883997877, 958139571, 1322822218, 1537002063, 1747873779,
   1955562222, 2024104815, 2227730452, 2361852424, 2428436474, 2756734187, 3204031479, 3329325298]

/-- The eight working registers of the SHA-256 compression function. -/
structure ShaState where
  a : Nat
  b : Nat
  c : Nat
  d : Nat
  e : Nat
  f : Nat
  g : Nat
  h : Nat

/-- The SHA-256 initial hash value. -/
def shaInit : ShaState :=
  ⟨1779033703, 3144134277, 1013904242, 2773480762, 1359893119, 2600822924, 528734635, 1541459225⟩

/-- Pad a message to a multiple of 64 bytes: `0x80`, zeros, then the bit
length as 8 big-endian bytes. -/
def padMessage (msg : List Nat) : List Nat :=
  let len := msg.length
  let bitLen := len * 8
  msg ++ [0x80] ++ List.replicate ((119 - len % 64) % 64) 0 ++
    [bitLen / 2 ^ 56 % 256, bitLen / 2 ^ 48 % 256, bitLen / 2 ^ 40 % 256, bitLen / 2 ^ 32 % 256,
     bitLen / 2 ^ 24 % 256, bitLen / 2 ^ 16 % 256, bitLen / 2 ^ 8 % 256, bitLen % 256]

/-- Group bytes into big-endian 32-bit words. -/
def bytesToWords : List Nat → List Nat
  | b0 :: b1 :: b2 :: b3 :: rest => (b0 * 2 ^ 24 + b1 * 2 ^ 16 + b2 * 2 ^ 8 + b3) :: bytesToWords rest
  | _ => []

/-- Extend a 16-word block to the 64-word message schedule. -/
def extendSchedule (w : Array Nat) : Nat → Array Nat
  | 0 => w
  | n + 1 =>
    let w := extendSchedule w n
    let t := w.size
    let w15 := w.getD (t - 15) 0
    let w2 := w.getD (t - 2) 0
    let s0 := (rotr32 w15 7) ^^^ (rotr32 w15 18) ^^^ (w15 >>> 3)
    let s1 := (rotr32 w2 17) ^^^ (rotr32 w2 19) ^^^ (w2 >>> 10)
    w.push (w32 (w.getD (t - 16) 0 + s0 + w.getD (t - 7) 0 + s1))

/-- One SHA-256 round. -/
def shaRound (wt kt : Nat) (st : ShaState) : ShaState :=
  let s1 := (rotr32 st.e 6) ^^^ (rotr32 st.e 11) ^^^ (rotr32 st.e 25)
  let ch := (st.e &&& st.f) ^^^ ((4294967295 - st.e) &&& st.g)
  let temp1 := w32 (st.h + s1 + ch + kt + wt)
  let s0 := (rotr32 st.a 2) ^^^ (rotr32 st.a 13) ^^^ (rotr32 st.a 22)
  let maj := (st.a &&& st.b) ^^^ (st.a &&& st.c) ^^^ (st.b &&& st.c)
  let temp2 := w32 (s0 + maj)
  ⟨w32 (temp1 + temp2), st.a, st.b, st.c, w32 (st.d + temp1), st.e, st.f, st.g⟩

/-- Run the 64 rounds over the schedule and round constants. -/
def shaRounds : List Nat → List Nat → ShaState → ShaState
  | wt :: ws, kt :: ks, st => shaRounds ws ks (shaRound wt kt st)
  | _, _, st => st

/-- Add two register states word-wise mod `2 ^ 32`. -/
def addState (x y : ShaState) : ShaState :=
  ⟨w32 (x.a + y.a), w32 (x.b + y.b), w32 (x.c + y.c), w32 (x.d + y.d),
   w32 (x.e + y.e), w32 (x.f + y.f), w32 (x.g + y.g), w32 (x.h + y.h)⟩

/-- Compress the padded message 64-byte chunk by chunk; fuel is one unit
per chunk. -/
def processChunks (fuel : Nat) (bytes : List Nat) (st : ShaState) : ShaState :=
  match fuel with
  | 0 => st
  | fuel + 1 =>
    match bytes with
    | [] => st
    | _ =>
      let chunk := bytes.take 64
      let w := extendSchedule (bytesToWords chunk).toArray 48
      let st' := addState st (shaRounds w.toList shaK st)
      processChunks fuel (bytes.drop 64) st'

/-- Big-endian bytes of a 32-bit word. -/
def wordBytes (x : Nat) : List Nat :=
  [x / 2 ^ 24 % 256, x / 2 ^ 16 % 256, x / 2 ^ 8 % 256, x % 256]

/-- SHA-256 digest (32 bytes) of a byte list. -/
def sha256Bytes (msg : List Nat) : List Nat :=
  let padded := padMessage msg
  let st := processChunks (padded.length / 64) padded shaInit
  wordBytes st.a ++ wordBytes st.b ++ wordBytes st.c ++ wordBytes st.d ++
    wordBytes st.e ++ wordBytes st.f ++ wordBytes st.g ++ wordBytes st.h

/-- `sha256` from `src/hash-chain/hash.ts`: UTF-8 encode, digest, render as
lowercase hex. -/
def sha256hex (s : String) : String :=
  String.mk ((sha256Bytes (utf8Bytes s)).flatMap byteToHex)

/-! ### Core data model (`src/types.ts`, `src/errors.ts`) -/

/-- An event record, as stored. `previousHash` is `none` for a genesis
event; JS numbers (`sequenceNumber`, `version`) are exact rationals. -/
structure Event where
  id : String
  type : String
  spaceId : String
  timestamp : String
  sequenceNumber : ℚ
  hash : String
  previousHash : Option String
  version : ℚ
  payload : JsonObj
  deriving DecidableEq

/-- The discriminated union of error values from `src/errors.ts`. -/
inductive EventLogError where
  | integrityViolation (eventId expected actual : String)
  | storageFull (usedBytes maxBytes : ℚ)
  | invalidQuery (field reason : String)
  | invalidEvent (field reason : String)
  | snapshotFailed (spaceId reason : String)
  | importFailed (reason : String) (eventId : Option String)
  | databaseError (operation reason : String)
  deriving DecidableEq

/-- `Result<T>`: `{ok: true, value}` or `{ok: false, error}`. -/
inductive Result (α : Type) where
  | ok (value : α)
  | err (error : EventLogError)
  deriving DecidableEq

/-- Whether a result is the `ok` case. -/
def Result.isOk {α : Type} : Result α → Bool
  | .ok _ => true
  | .err _ => false

/-! ### Chain linker (`src/hash-chain/chain.ts`)

The store's `events` table is a `List Event` in insertion order; the
`[spaceId+sequenceNumber]` index's `.last()` is the record with the
maximal `(sequenceNumber, id)` key among the space's events. -/

/-- Strict order on `(sequenceNumber, id)` index keys (ties on the
compound key broken by the primary key `id`). -/
def keyLt (s₁ : ℚ) (i₁ : String) (s₂ : ℚ) (i₂ : String) : Bool :=
  s₁ < s₂ || (s₁ == s₂ && i₁ < i₂)

/-- The event with the maximal `(sequenceNumber, id)` among a space's
events — Dexie's `.between([spaceId, min], [spaceId, max]).last()`. -/
def lastEventOfSpace (events : List Event) (spaceId : String) : Option Event :=
  events.foldl
    (fun acc e =>
      if e.spaceId == spaceId then
        match acc with
        | none => some e
        | some m =>
          if keyLt m.sequenceNumber m.id e.sequenceNumber e.id then some e else some m
      else acc)
    none

/-- `getLastEventHash`: hash of the last event of the space, `none` if the
space has no events (genesis case). -/
def getLastEventHash (events : List Event) (spaceId : String) : Option String :=
  (lastEventOfSpace events spaceId).map (fun e => e.hash)

/-- `getNextSequenceNumber`: `1` for the first event, else last + 1. -/
def getNextSequenceNumber (events : List Event) (spaceId : String) : ℚ :=
  match lastEventOfSpace events spaceId with
  | none => 1
  | some e => e.sequenceNumber + 1

/-- Tail of `verifyChainLinks`: each event's `previousHash` must equal the
preceding event's `hash`. -/
def verifyChainLinksAux : List Event → String → Nat → Int
  | [], _, _ => -1
  | e :: rest, prev, i =>
    if e.previousHash = some prev then verifyChainLinksAux rest e.hash (i + 1)
    else Int.ofNat i

/-- `verifyChainLinks`: index of the first broken link, `-1` if the chain
is intact. The first event must have a null `previousHash`; every later
event's `previousHash` must equal its predecessor's `hash`. -/
def verifyChainLinks : List Event → Int
  | [] => -1
  | e :: rest => if e.previousHash = none then verifyChainLinksAux rest e.hash 1 else 0

/-! ### Event hashing (`src/hash-chain/hash.ts`) -/

/-- A nullable string as JSON. -/
def optStr : Option String → Json
  | none => .null
  | some s => .str s

/-- The hash-input record of `computeEventHash`: exactly the eight fields
`id`, `type`, `spaceId`, `timestamp`, `sequenceNumber`, `previousHash`,
`version`, `payload`, with the `hash` field excluded. -/
def hashInputJson (id type spaceId timestamp : String) (sequenceNumber : ℚ)
    (previousHash : Option String) (version : ℚ) (payload : JsonObj) : Json :=
  .obj (.cons "id" (.str id) (.cons "type" (.str type) (.cons "spaceId" (.str spaceId)
    (.cons "timestamp" (.str timestamp) (.cons "sequenceNumber" (.num sequenceNumber)
    (.cons "previousHash" (optStr previousHash) (.cons "version" (.num version)
    (.cons "payload" (.obj payload) .nil))))))))

/-- `computeEventHash`: SHA-256 of the deterministic serialization of the
hash-input record. -/
def computeEventHash (id type spaceId timestamp : String) (sequenceNumber : ℚ)
    (previousHash : Option String) (version : ℚ) (payload : JsonObj) : String :=
  sha256hex (deterministicSerialize
    (hashInputJson id type spaceId timestamp sequenceNumber previousHash version payload))

/-! ### Write pipeline (`src/storage/event-writer.ts`)

`Date.parse` validity is the parameter `validTs`; the generated UUID is the
parameter `genId`; the per-space lock's observable effect is that each
write is one atomic step on the store. -/

/-- The 11 enumerated event type tags. -/
def VALID_EVENT_TYPES : List String :=
  ["space_created", "space_evolved", "space_forked", "space_deleted", "state_changed",
   "action_invoked", "intent_submitted", "intent_queued", "intent_resolved",
   "user_feedback", "system_event"]

/-- The caller-supplied fields of a write. -/
structure WriteEventInput where
  type : String
  spaceId : String
  timestamp : String
  version : ℚ
  payload : JsonObj

/-- `validateInput`: returns an error or `none` if valid. The version check
is the source's `typeof input.version !== 'number' || input.version < 1`
(the `typeof` disjunct cannot fail in the model, where `version` is always
a number). -/
def validateInput (validTs : String → Bool) (input : WriteEventInput) :
    Option EventLogError :=
  if input.spaceId.trim = "" then some (.invalidEvent "spaceId" "must not be empty")
  else if ¬ VALID_EVENT_TYPES.contains input.type then
    some (.invalidEvent "type" ("invalid event type: " ++ input.type))
  else if input.timestamp.trim = "" then some (.invalidEvent "timestamp" "must not be empty")
  else if ¬ validTs input.timestamp then
    some (.invalidEvent "timestamp" "must be a valid ISO 8601 timestamp")
  else if input.version < 1 then some (.invalidEvent "version" "must be a positive integer")
  else none

/-- `writeEvent`: validate, read the chain tail, compute sequence number and
hash, insert. Returns the result together with the store after the call
(unchanged on every error path; `db.events.add` rejects a duplicate
primary key). -/
def writeEvent (validTs : String → Bool) (events : List Event) (input : WriteEventInput)
    (genId : String) : Result Event × List Event :=
  match validateInput validTs input with
  | some e => (.err e, events)
  | none =>
    let previousHash := getLastEventHash events input.spaceId
    let sequenceNumber := getNextSequenceNumber events input.spaceId
    let hash := computeEventHash genId input.type input.spaceId input.timestamp
      sequenceNumber previousHash input.version input.payload
    let e : Event :=
      ⟨genId, input.type, input.spaceId, input.timestamp, sequenceNumber, hash,
       previousHash, input.version, input.payload⟩
    if events.any (fun x => x.id == genId) then
      (.err (.databaseError "writeEvent" "Key already exists in the object store"), events)
    else (.ok e, events ++ [e])

/-- A whole history: fold `writeEvent` over a list of `(input, generated id)`
pairs, starting from a given store, keeping only the store. -/
def applyWrites (validTs : String → Bool) (ops : List (WriteEventInput × String))
    (events : List Event) : List Event :=
  match ops with
  | [] => events
  | (input, genId) :: rest =>
    applyWrites validTs rest (writeEvent validTs events input genId).2

/-! ### Base64 (`btoa` / `atob`) -/

/-- The base64 alphabet. -/
def base64Alphabet : List Char :=
  "ABCDEFGHIJKLMNOPQRSTUVWXYZabcdefghijklmnopqrstuvwxyz0123456789+/".data

/-- A base64 digit character. -/
def b64Char (n : Nat) : Char := base64Alphabet.getD (n % 64) 'A'

/-- Encode a byte list to base64 characters with padding. -/
def base64EncodeAux : List Nat → List Char
  | [] => []
  | [b₀] => [b64Char (b₀ >>> 2), b64Char ((b₀ &&& 3) <<< 4), '=', '=']
  | [b₀, b₁] =>
    [b64Char (b₀ >>> 2), b64Char (((b₀ &&& 3) <<< 4) ||| (b₁ >>> 4)),
     b64Char ((b₁ &&& 15) <<< 2), '=']
  | b₀ :: b₁ :: b₂ :: rest =>
    b64Char (b₀ >>> 2) :: b64Char (((b₀ &&& 3) <<< 4) ||| (b₁ >>> 4)) ::
    b64Char (((b₁ &&& 15) <<< 2) ||| (b₂ >>> 6)) :: b64Char (b₂ &&& 63) ::
    base64EncodeAux rest

/-- `btoa`: base64 of a binary string's character codes. -/
def btoa (s : String) : String :=
  String.mk (base64EncodeAux (s.data.map Char.toNat))

/-- The value of one base64 digit, if any. -/
def b64Val (c : Char) : Option Nat := base64Alphabet.indexOf? c

/-- Decode full and final base64 quantum groups; `none` on any character
outside the alphabet or an impossible final length. -/
def base64DecodeAux : List Char → Option (List Nat)
  | [] => some []
  | [_] => none
  | [c₁, c₂] =>
    match b64Val c₁, b64Val c₂ with
    | some v₁, some v₂ => some [(v₁ <<< 2) ||| (v₂ >>> 4)]
    | _, _ => none
  | [c₁, c₂, c₃] =>
    match b64Val c₁, b64Val c₂, b64Val c₃ with
    | some v₁, some v₂, some v₃ =>
      some [(v₁ <<< 2) ||| (v₂ >>> 4), ((v₂ &&& 15) <<< 4) ||| (v₃ >>> 2)]
    | _, _, _ => none
  | c₁ :: c₂ :: c₃ :: c₄ :: rest =>
    match b64Val c₁, b64Val c₂, b64Val c₃, b64Val c₄, base64DecodeAux rest with
    | some v₁, some v₂, some v₃, some v₄, some bs =>
      some (((v₁ <<< 2) ||| (v₂ >>> 4)) :: (((v₂ &&& 15) <<< 4) ||| (v₃ >>> 2)) ::
        (((v₃ &&& 3) <<< 6) ||| v₄) :: bs)
    | _, _, _, _, _ => none

/-- Strip up to two trailing `=` padding characters. -/
def stripB64Padding (cs : List Char) : List Char :=
  match cs.reverse with
  | '=' :: '=' :: rest => rest.reverse
  | '=' :: rest => rest.reverse
  | _ => cs

/-- `atob`: decode base64 to a byte list; `none` models the thrown
`InvalidCharacterError`. -/
def atobBytes (s : String) : Option (List Nat) :=
  base64DecodeAux (stripB64Padding s.data)

/-! ### `JSON.parse` model

A strict recursive-descent parser over the character list, with fuel
(bounded by the input length) for structural recursion. Duplicate object
keys overwrite in place, as JavaScript property assignment does. -/

/-- Skip JSON whitespace. -/
def skipWs : List Char → List Char
  | c :: rest =>
    if c = ' ' ∨ c = '\t' ∨ c = '\n' ∨ c = '\r' then skipWs rest else c :: rest
  | [] => []

/-- The value of a hex digit character, if any. -/
def hexVal (c : Char) : Option Nat :=
  if '0' ≤ c ∧ c ≤ '9' then some (c.toNat - '0'.toNat)
  else if 'a' ≤ c ∧ c ≤ 'f' then some (c.toNat - 'a'.toNat + 10)
  else if 'A' ≤ c ∧ c ≤ 'F' then some (c.toNat - 'A'.toNat + 10)
  else none

/-- Four hex digits, as in a `\uXXXX` escape. -/
def hex4 (a b c d : Char) : Option Nat :=
  match hexVal a, hexVal b, hexVal c, hexVal d with
  | some va, some vb, some vc, some vd => some (va * 4096 + vb * 256 + vc * 16 + vd)
  | _, _, _, _ => none

/-- Parse a JSON string body after the opening quote; handles the JSON
escapes and combines `\uXXXX` surrogate pairs. Fuel (one unit per consumed
character suffices) keeps the recursion structural. -/
def parseStringBodyAux (fuel : Nat) (input : List Char) : Option (List Char × List Char) :=
  match fuel with
  | 0 => none
  | fuel + 1 =>
    match input with
    | [] => none
    | '"' :: rest => some ([], rest)
    | '\\' :: esc =>
      match esc with
      | '"' :: rest => (parseStringBodyAux fuel rest).map (fun (cs, r) => ('"' :: cs, r))
      | '\\' :: rest => (parseStringBodyAux fuel rest).map (fun (cs, r) => ('\\' :: cs, r))
      | '/' :: rest => (parseStringBodyAux fuel rest).map (fun (cs, r) => ('/' :: cs, r))
      | 'b' :: rest => (parseStringBodyAux fuel rest).map (fun (cs, r) => (Char.ofNat 8 :: cs, r))
      | 'f' :: rest => (parseStringBodyAux fuel rest).map (fun (cs, r) => (Char.ofNat 12 :: cs, r))
      | 'n' :: rest => (parseStringBodyAux fuel rest).map (fun (cs, r) => ('\n' :: cs, r))
      | 'r' :: rest => (parseStringBodyAux fuel rest).map (fun (cs, r) => (Char.ofNat 13 :: cs, r))
      | 't' :: rest => (parseStringBodyAux fuel rest).map (fun (cs, r) => ('\t' :: cs, r))
      | 'u' :: a :: b :: c :: d :: rest =>
        match hex4 a b c d with
        | none => none
        | some n =>
          if 0xD800 ≤ n ∧ n < 0xDC00 then
            match rest with
            | '\\' :: 'u' :: a₂ :: b₂ :: c₂ :: d₂ :: rest₂ =>
              match hex4 a₂ b₂ c₂ d₂ with
              | some m =>
                if 0xDC00 ≤ m ∧ m < 0xE000 then
                  (parseStringBodyAux fuel rest₂).map (fun (cs, r) =>
                    (Char.ofNat (0x10000 + (n - 0xD800) * 1024 + (m - 0xDC00)) :: cs, r))
                else
                  (parseStringBodyAux fuel rest₂).map (fun (cs, r) =>
                    (Char.ofNat n :: Char.ofNat m :: cs, r))
              | none => none
            | _ => (parseStringBodyAux fuel rest).map (fun (cs, r) => (Char.ofNat n :: cs, r))
          else (parseStringBodyAux fuel rest).map (fun (cs, r) => (Char.ofNat n :: cs, r))
      | _ => none
    | c :: rest =>
      if c.toNat < 32 then none
      else (parseStringBodyAux fuel rest).map (fun (cs, r) => (c :: cs, r))

/-- Parse a JSON string body after the opening quote. -/
def parseStringBody (input : List Char) : Option (List Char × List Char) :=
  parseStringBodyAux (input.length + 1) input

/-- Split off a run of decimal digits. -/
def takeDigits : List Char → List Char × List Char
  | c :: rest =>
    if '0' ≤ c ∧ c ≤ '9' then
      let (ds, r) := takeDigits rest
      (c :: ds, r)
    else ([], c :: rest)
  | [] => ([], [])

/-- Value of a digit run. -/
def digitsToNat (ds : List Char) : Nat :=
  ds.foldl (fun acc c => acc * 10 + (c.toNat - '0'.toNat)) 0

/-- Parse a JSON number into the exact rational it denotes. -/
def parseNumber (cs : List Char) : Option (Json × List Char) :=
  let (neg, cs₁) := match cs with | '-' :: r => (true, r) | _ => (false, cs)
  match takeDigits cs₁ with
  | ([], _) => none
  | (ds, rest) =>
    if ds.length > 1 ∧ ds.headD '0' = '0' then none
    else
      let intPart : ℚ := (digitsToNat ds : ℚ)
      let (frac, rest₂) :=
        match rest with
        | '.' :: r =>
          match takeDigits r with
          | ([], _) => (none, rest)
          | (fs, r₂) => (some ((digitsToNat fs : ℚ) / ((10 : ℚ) ^ fs.length)), r₂)
        | _ => (none, rest)
      match frac, rest with
      | none, '.' :: _ => none
      | _, _ =>
        let mantissa := intPart + frac.getD 0
        let (expo, rest₃) :=
          match rest₂ with
          | 'e' :: r => (some r, rest₂)
          | 'E' :: r => (some r, rest₂)
          | _ => (none, rest₂)
        match expo with
        | none => some (.num (if neg then -mantissa else mantissa), rest₃)
        | some r =>
          let (esign, r₂) :=
            match r with
            | '+' :: rr => ((1 : ℤ), rr)
            | '-' :: rr => ((-1 : ℤ), rr)
            | _ => ((1 : ℤ), r)
          match takeDigits r₂ with
          | ([], _) => none
          | (es, r₃) =>
            let q := mantissa * (10 : ℚ) ^ (esign * (digitsToNat es : ℤ))
            some (.num (if neg then -q else q), r₃)

mutual

/-- Parse one JSON value. -/
def parseValue : Nat → List Char → Option (Json × List Char)
  | 0, _ => none
  | fuel + 1, cs =>
    match skipWs cs with
    | 'n' :: 'u' :: 'l' :: 'l' :: rest => some (.null, rest)
    | 't' :: 'r' :: 'u' :: 'e' :: rest => some (.bool true, rest)
    | 'f' :: 'a' :: 'l' :: 's' :: 'e' :: rest => some (.bool false, rest)
    | '"' :: rest => (parseStringBody rest).map (fun (cs, r) => (.str (String.mk cs), r))
    | '[' :: rest =>
      match skipWs rest with
      | ']' :: r => some (.arr .nil, r)
      | cs' => (parseArrElems fuel cs').map (fun (vs, r) => (.arr (JsonArr.ofList vs), r))
    | '{' :: rest =>
      match skipWs rest with
      | '}' :: r => some (.obj .nil, r)
      | cs' =>
        (parseObjElems fuel cs').map (fun (fs, r) =>
          (.obj (fs.foldl (fun o kv => o.set kv.1 kv.2) .nil), r))
    | cs' => parseNumber cs'

/-- Parse comma-separated array elements up to the closing bracket. -/
def parseArrElems : Nat → List Char → Option (List Json × List Char)
  | 0, _ => none
  | fuel + 1, cs =>
    match parseValue fuel cs with
    | none => none
    | some (v, rest) =>
      match skipWs rest with
      | ',' :: rest' => (parseArrElems fuel rest').map (fun (vs, r) => (v :: vs, r))
      | ']' :: rest' => some ([v], rest')
      | _ => none

/-- Parse comma-separated `"key": value` members up to the closing brace. -/
def parseObjElems : Nat → List Char → Option (List (String × Json) × List Char)
  | 0, _ => none
  | fuel + 1, cs =>
    match skipWs cs with
    | '"' :: cs' =>
      match parseStringBody cs' with
      | none => none
      | some (key, rest) =>
        match skipWs rest with
        | ':' :: rest' =>
          match parseValue fuel rest' with
          | none => none
          | some (v, rest₂) =>
            match skipWs rest₂ with
            | ',' :: rest₃ =>
              (parseObjElems fuel rest₃).map (fun (fs, r) => ((String.mk key, v) :: fs, r))
            | '}' :: rest₃ => some ([(String.mk key, v)], rest₃)
            | _ => none
        | _ => none
    | _ => none

end

/-- `JSON.parse`: `none` models a thrown `SyntaxError` (including trailing
garbage after the top-level value). -/
def jsonParse (s : String) : Option Json :=
  match parseValue (s.length + 1) s.data with
  | none => none
  | some (v, rest) => if skipWs rest = [] then some v else none

/-! ### Query engine (`src/queries/query-engine.ts`) -/

/-- A decoded cursor: the `(sequence_number, id)` position. -/
structure CursorPayload where
  seq : ℚ
  id : String
  deriving DecidableEq

/-- `encodeCursor`: base64 of `JSON.stringify({seq, id})`. -/
def encodeCursor (seq : ℚ) (id : String) : String :=
  btoa (stringifyJson (.obj (.cons "seq" (.num seq) (.cons "id" (.str id) .nil))))

/-- Look up a key in a `JsonObj`. -/
def JsonObj.get? : JsonObj → String → Option Json
  | .nil, _ => none
  | .cons k v tl, key => if k = key then some v else JsonObj.get? tl key

/-- `decodeCursor`: `atob`, `JSON.parse`, then the shape check (`seq` a
number and `id` a string); `none` on any failure. -/
def decodeCursor (cursor : String) : Option CursorPayload :=
  match atobBytes cursor with
  | none => none
  | some bytes =>
    match jsonParse (String.mk (bytes.map Char.ofNat)) with
    | some (.obj fs) =>
      match fs.get? "seq", fs.get? "id" with
      | some (.num q), some (.str i) => some ⟨q, i⟩
      | _, _ => none
    | _ => none

/-- Sort order of a query. -/
inductive OrderDir where
  | asc
  | desc
  deriving DecidableEq

/-- `QueryOptions`: optional limit, cursor, order. -/
structure QueryOptions where
  limit : Option Int
  cursor : Option String
  order : Option OrderDir

/-- The concrete values `resolveOptions` produces. -/
structure ResolvedOptions where
  limit : Int
  cursor : Option CursorPayload
  order : OrderDir
  rawCursor : Option String

/-- `resolveOptions`: `limit` is `Math.min(Math.max(1, limit ?? 100), 1000)`;
order defaults to ascending; the cursor is decoded when present. -/
def resolveOptions (options : Option QueryOptions) : ResolvedOptions :=
  let limit := min (max 1 ((options.bind (fun o => o.limit)).getD 100)) 1000
  let order := (options.bind (fun o => o.order)).getD .asc
  let rawCursor := options.bind (fun o => o.cursor)
  let cursor := rawCursor.bind decodeCursor
  ⟨limit, cursor, order, rawCursor⟩

/-- A page of results: items, optional continuation cursor, total count. -/
structure PaginatedResult where
  items : List Event
  nextCursor : Option String
  total : Nat
  deriving DecidableEq

/-- Insert into a list sorted by the boolean relation `le` (stable: goes
before the first element it is `le` to). -/
def insertLe {α : Type} (le : α → α → Bool) (x : α) : List α → List α
  | [] => [x]
  | y :: ys => if le x y then x :: y :: ys else y :: insertLe le x ys

/-- Stable insertion sort by the boolean relation `le`. -/
def sortWith {α : Type} (le : α → α → Bool) : List α → List α
  | [] => []
  | x :: xs => insertLe le x (sortWith le xs)

/-- Ascending `(sequenceNumber, id)` order — both the compound-index scan
order and the in-memory comparator of `queryByType` / `queryByTime`. -/
def seqIdLe (a b : Event) : Bool :=
  a.sequenceNumber < b.sequenceNumber ||
    (a.sequenceNumber == b.sequenceNumber && a.id ≤ b.id)

/-- Descending `(sequenceNumber, id)` order, the `order = 'desc'` comparator. -/
def seqIdDescLe (a b : Event) : Bool :=
  b.sequenceNumber < a.sequenceNumber ||
    (a.sequenceNumber == b.sequenceNumber && b.id ≤ a.id)

/-- Ascending `id` order (the `type` index's secondary order). -/
def idLe (a b : Event) : Bool := a.id ≤ b.id

/-- Ascending `(timestamp, id)` order (the `timestamp` index's order). -/
def tsIdLe (a b : Event) : Bool :=
  a.timestamp < b.timestamp || (a.timestamp == b.timestamp && a.id ≤ b.id)

/-- The shared tail of the three queries: take `limit + 1` rows (already
cursored and ordered), drop the overflow row, emit `nextCursor` from the
last retained row iff the overflow row existed. -/
def paginate (matched : List Event) (limit : Int) (total : Nat) : PaginatedResult :=
  let rows := matched.take (limit.toNat + 1)
  let hasMore := rows.length > limit.toNat
  let pageRows := rows.take limit.toNat
  let nextCursor :=
    if hasMore then pageRows.getLast?.map (fun e => encodeCursor e.sequenceNumber e.id)
    else none
  ⟨pageRows, nextCursor, total⟩

/-- `queryBySpace`: compound-index range scan past the cursor's sequence
number, reversed for descending order. -/
def queryBySpace (events : List Event) (spaceId : String) (options : Option QueryOptions) :
    Result PaginatedResult :=
  let ro := resolveOptions options
  if ro.rawCursor.isSome ∧ ro.cursor = none then
    .err (.invalidQuery "cursor" "Invalid cursor format")
  else
    let total := (events.filter (fun e => e.spaceId == spaceId)).length
    let inRange := events.filter (fun e =>
      e.spaceId == spaceId &&
        match ro.cursor with
        | none => true
        | some c =>
          match ro.order with
          | .asc => c.seq + 1 ≤ e.sequenceNumber
          | .desc => e.sequenceNumber ≤ c.seq - 1)
    let indexRows := sortWith seqIdLe inRange
    let ordered := match ro.order with | .asc => indexRows | .desc => indexRows.reverse
    .ok (paginate ordered ro.limit total)

/-- The in-memory cursor filter shared by `queryByType` and `queryByTime`. -/
def cursorKeep (cursor : Option CursorPayload) (order : OrderDir) (e : Event) : Bool :=
  match cursor with
  | none => true
  | some c =>
    match order with
    | .asc => c.seq < e.sequenceNumber || (e.sequenceNumber == c.seq && c.id < e.id)
    | .desc => e.sequenceNumber < c.seq || (e.sequenceNumber == c.seq && e.id < c.id)

/-- Order events by the requested direction's `(sequenceNumber, id)`
comparator. -/
def orderEvents (order : OrderDir) (l : List Event) : List Event :=
  match order with
  | .asc => sortWith seqIdLe l
  | .desc => sortWith seqIdDescLe l

/-- `queryByType`: fetch the `type` index's rows, filter past the cursor
and sort in memory, then paginate. -/
def queryByType (events : List Event) (type : String) (options : Option QueryOptions) :
    Result PaginatedResult :=
  let ro := resolveOptions options
  if ro.rawCursor.isSome ∧ ro.cursor = none then
    .err (.invalidQuery "cursor" "Invalid cursor format")
  else
    let total := (events.filter (fun e => e.type == type)).length
    let fetched := sortWith idLe (events.filter (fun e => e.type == type))
    let matched := orderEvents ro.order (fetched.filter (cursorKeep ro.cursor ro.order))
    let rows := matched
    let hasMore := rows.length > ro.limit.toNat
    let pageRows := rows.take ro.limit.toNat
    let nextCursor :=
      if hasMore then pageRows.getLast?.map (fun e => encodeCursor e.sequenceNumber e.id)
      else none
    .ok ⟨pageRows, nextCursor, total⟩

/-- Membership in the half-open time range `[from, to)`, as the
`timestamp` index's string-key comparison. -/
def inTimeRange (tsFrom tsTo : String) (e : Event) : Bool :=
  tsFrom ≤ e.timestamp && e.timestamp < tsTo

/-- `queryByTime`: validate both bounds, scan the `timestamp` index over
`[from, to)`, filter past the cursor and sort in memory, then paginate. -/
def queryByTime (validTs : String → Bool) (events : List Event) (tsFrom tsTo : String)
    (options : Option QueryOptions) : Result PaginatedResult :=
  if ¬ validTs tsFrom then .err (.invalidQuery "from" "Invalid ISO 8601 timestamp")
  else if ¬ validTs tsTo then .err (.invalidQuery "to" "Invalid ISO 8601 timestamp")
  else
    let ro := resolveOptions options
    if ro.rawCursor.isSome ∧ ro.cursor = none then
      .err (.invalidQuery "cursor" "Invalid cursor format")
    else
      let total := (events.filter (inTimeRange tsFrom tsTo)).length
      let fetched := sortWith tsIdLe (events.filter (inTimeRange tsFrom tsTo))
      let matched := orderEvents ro.order (fetched.filter (cursorKeep ro.cursor ro.order))
      let rows := matched
      let hasMore := rows.length > ro.limit.toNat
      let pageRows := rows.take ro.limit.toNat
      let nextCursor :=
        if hasMore then pageRows.getLast?.map (fun e => encodeCursor e.sequenceNumber e.id)
        else none
      .ok ⟨pageRows, nextCursor, total⟩

/-! ### Snapshot manager (`src/snapshots/snapshot-manager.ts`) -/

/-- A state checkpoint at a specific event sequence number. -/
structure Snapshot where
  id : String
  spaceId : String
  eventSequenceNumber : ℚ
  timestamp : String
  state : Json
  hash : String
  deriving DecidableEq

/-- The snapshot with the maximal `(eventSequenceNumber, id)` among a
space's snapshots — the `[spaceId+eventSequenceNumber]` index's `.last()`. -/
def lastSnapshotOfSpace (snaps : List Snapshot) (spaceId : String) : Option Snapshot :=
  snaps.foldl
    (fun acc s =>
      if s.spaceId == spaceId then
        match acc with
        | none => some s
        | some m =>
          if keyLt m.eventSequenceNumber m.id s.eventSequenceNumber s.id then some s else some m
      else acc)
    none

/-- `createSnapshot`: find the latest snapshot, load the events past it
(ascending), fold them through the reducer, and insert a snapshot pinned to
the last folded event. Returns the result with the snapshots table after
the call. The reducer and the generated id are the injected callables. -/
def createSnapshot (events : List Event) (snaps : List Snapshot) (spaceId : String)
    (stateReducer : Json → Event → Json) (genId : String) :
    Result Snapshot × List Snapshot :=
  let latestSnapshot := lastSnapshotOfSpace snaps spaceId
  let state₀ := match latestSnapshot with | none => Json.null | some s => s.state
  let startAfterSeq := match latestSnapshot with | none => (0 : ℚ) | some s => s.eventSequenceNumber
  let newEvents := sortWith seqIdLe (events.filter (fun e =>
    e.spaceId == spaceId && startAfterSeq + 1 ≤ e.sequenceNumber))
  if newEvents.isEmpty && latestSnapshot.isNone then
    (.err (.snapshotFailed spaceId "No events found for space"), snaps)
  else
    let state := newEvents.foldl stateReducer state₀
    match newEvents.getLast? with
    | none => (.err (.snapshotFailed spaceId "No new events since last snapshot"), snaps)
    | some lastEvent =>
      let snap : Snapshot :=
        ⟨genId, spaceId, lastEvent.sequenceNumber, lastEvent.timestamp, state,
         sha256hex (deterministicSerialize state)⟩
      if snaps.any (fun s => s.id == genId) then
        (.err (.databaseError "createSnapshot" "Key already exists in the object store"), snaps)
      else (.ok snap, snaps ++ [snap])

/-! ### Storage report and pressure classifier (`src/storage/pressure.ts`) -/

/-- Per-space storage tallies. -/
structure SpaceStorageInfo where
  spaceId : String
  eventCount : Nat
  estimatedBytes : ℚ
  deriving DecidableEq

/-- A storage utilization report. -/
structure StorageReport where
  totalEvents : Nat
  totalSnapshots : Nat
  estimatedBytes : ℚ
  oldestEvent : Option String
  newestEvent : Option String
  spaces : List SpaceStorageInfo
  deriving DecidableEq

/-- The five pressure levels. -/
inductive StoragePressureLevel where
  | NORMAL
  | COMPACT
  | EXPORT_PROMPT
  | AGGRESSIVE
  | BLOCKED
  deriving DecidableEq

/-- A pressure assessment: level, usage fraction, recommendation. -/
structure StoragePressureReport where
  level : StoragePressureLevel
  usageRatio : ℚ
  recommendation : String
  deriving DecidableEq

/-- `getStoragePressure`: the pure threshold classifier, with JS numbers
modelled as exact rationals. -/
def getStoragePressure (report : StorageReport) (availableBytes : ℚ) :
    StoragePressureReport :=
  if availableBytes ≤ 0 then
    ⟨.BLOCKED, 1, "Storage budget is zero or negative — all writes should be blocked."⟩
  else
    let ratio := min (report.estimatedBytes / availableBytes) 1
    if ratio ≥ 0.9 then
      ⟨.BLOCKED, ratio,
       "Storage usage exceeds 90%. Block new space creation and prompt for export or cleanup."⟩
    else if ratio ≥ 0.8 then
      ⟨.AGGRESSIVE, ratio,
       "Storage usage exceeds 80%. Auto-compact old spaces and create aggressive snapshots."⟩
    else if ratio ≥ 0.7 then
      ⟨.EXPORT_PROMPT, ratio,
       "Storage usage exceeds 70%. Prompt user to export old data to archives."⟩
    else if ratio ≥ 0.5 then
      ⟨.COMPACT, ratio,
       "Storage usage exceeds 50%. Consider compacting infrequently accessed spaces."⟩
    else
      ⟨.NORMAL, ratio, "Storage usage is within normal limits. No action needed."⟩

/-! ### Archive format (`src/archive/format.ts`) -/

/-- The ASCII magic bytes `RBLOG`. -/
def ARCHIVE_MAGIC : List Nat := [0x52, 0x42, 0x4c, 0x4f, 0x47]

/-- The current archive format version byte. -/
def ARCHIVE_VERSION : Nat := 1

/-- Header size: 5 magic + 1 version + 4 count. -/
def HEADER_SIZE : Nat := 10

/-- Footer size: 64 hex characters of SHA-256. -/
def FOOTER_SIZE : Nat := 64

/-- Big-endian unsigned 32-bit bytes of a count, as `DataView.setUint32`
stores it (wrapping mod `2 ^ 32`). -/
def u32be (n : Nat) : List Nat :=
  [n / 2 ^ 24 % 256, n / 2 ^ 16 % 256, n / 2 ^ 8 % 256, n % 256]

/-- `encodeHeader`: magic, version, event count. -/
def encodeHeader (eventCount : Nat) : List Nat :=
  ARCHIVE_MAGIC ++ [ARCHIVE_VERSION] ++ u32be eventCount

/-- `parseHeader`: validate size, magic and version; read the count.
Returns `(version, eventCount)` or the error string. -/
def parseHeader (data : List Nat) : Except String (Nat × Nat) :=
  if data.length < HEADER_SIZE then
    .error "Archive too small to contain a valid header"
  else if data.take 5 ≠ ARCHIVE_MAGIC then
    .error "Invalid archive: magic bytes do not match"
  else if data.getD 5 0 ≠ ARCHIVE_VERSION then
    .error ("Unsupported archive version: " ++ toString (data.getD 5 0))
  else
    .ok (ARCHIVE_VERSION,
      data.getD 6 0 * 2 ^ 24 + data.getD 7 0 * 2 ^ 16 + data.getD 8 0 * 2 ^ 8 + data.getD 9 0)

/-! ### Archive exporter (`src/archive/exporter.ts`) -/

/-- The archive-serializable form of an event: the nine fields (including
`hash` and `previousHash`) in the fixed insertion order
`id, type, spaceId, timestamp, sequenceNumber, hash, previousHash, version,
payload`. -/
def toArchiveEventJson (e : Event) : Json :=
  .obj (.cons "id" (.str e.id) (.cons "type" (.str e.type) (.cons "spaceId" (.str e.spaceId)
    (.cons "timestamp" (.str e.timestamp) (.cons "sequenceNumber" (.num e.sequenceNumber)
    (.cons "hash" (.str e.hash) (.cons "previousHash" (optStr e.previousHash)
    (.cons "version" (.num e.version) (.cons "payload" (.obj e.payload) .nil)))))))))

/-- The uncompressed JSON body of an export: the plain (insertion-order)
stringification of the array of archive events. -/
def archiveBody (exported : List Event) : String :=
  stringifyJson (.arr (JsonArr.ofList (exported.map toArchiveEventJson)))

/-- `exportArchive`: validate the cutoff, load the space's events in index
order, keep those strictly before the cutoff, verify the chain links, then
assemble header ++ deflate(body) ++ hex SHA-256 footer. Deflate is the
platform parameter `compress`. -/
def exportArchive (validTs : String → Bool) (compress : List Nat → List Nat)
    (events : List Event) (spaceId beforeDate : String) : Result (List Nat) :=
  if ¬ validTs beforeDate then .err (.invalidQuery "beforeDate" "Invalid ISO 8601 timestamp")
  else
    let storedEvents := sortWith seqIdLe (events.filter (fun e => e.spaceId == spaceId))
    let filtered := storedEvents.filter (fun e => e.timestamp < beforeDate)
    let broken := if filtered.length > 0 then verifyChainLinks filtered else -1
    if broken ≥ 0 then
      let brokenEvent := filtered.get? broken.toNat
      let prevEvent := if broken > 0 then filtered.get? (broken.toNat - 1) else none
      .err (.integrityViolation
        ((brokenEvent.map (fun e => e.id)).getD "unknown")
        ((prevEvent.map (fun e => e.hash)).getD "null")
        ((brokenEvent.bind (fun e => e.previousHash)).getD "unknown"))
    else
      let jsonBody := archiveBody filtered
      let bodyHash := sha256hex jsonBody
      let compressedBody := compress (utf8Bytes jsonBody)
      .ok (encodeHeader filtered.length ++ compressedBody ++ utf8Bytes bodyHash)

/-! ### Archive importer (`src/archive/importer.ts`) -/

/-- An import outcome: counts and per-event shape errors `(eventId, reason)`. -/
structure ImportReport where
  importedEvents : Nat
  skippedDuplicates : Nat
  errors : List (String × String)
  deriving DecidableEq

/-- `JsonArr` as a list. -/
def JsonArr.toList : JsonArr → List Json
  | .nil => []
  | .cons x tl => x :: JsonArr.toList tl

/-- Whether an optional field is a string. -/
def isStrField : Option Json → Bool
  | some (.str _) => true
  | _ => false

/-- Whether an optional field is a number. -/
def isNumField : Option Json → Bool
  | some (.num _) => true
  | _ => false

/-- Whether an optional field is `null` or a string. -/
def isNullOrStrField : Option Json → Bool
  | some .null => true
  | some (.str _) => true
  | _ => false

/-- Whether an optional field has JS `typeof 'object'` and is not `null`
(objects and arrays qualify). -/
def isObjectField : Option Json → Bool
  | some (.obj _) => true
  | some (.arr _) => true
  | _ => false

/-- `isValidEventShape`: the importer's per-event shape check. -/
def isValidEventShape : Json → Bool
  | .obj fs =>
    isStrField (fs.get? "id") &&
    isStrField (fs.get? "type") &&
    (match fs.get? "type" with
     | some (.str t) => VALID_EVENT_TYPES.contains t
     | _ => false) &&
    isStrField (fs.get? "spaceId") &&
    isStrField (fs.get? "timestamp") &&
    isNumField (fs.get? "sequenceNumber") &&
    isStrField (fs.get? "hash") &&
    isNullOrStrField (fs.get? "previousHash") &&
    isNumField (fs.get? "version") &&
    isObjectField (fs.get? "payload")
  | _ => false

/-- Spreading a JS array into an object: index keys. -/
def arrToIndexedObjAux : Nat → JsonArr → JsonObj
  | _, .nil => .nil
  | i, .cons x tl => .cons (toString i) x (arrToIndexedObjAux (i + 1) tl)

/-- Extract field values from a shape-checked archive event. -/
def toEventFromJson (j : Json) : Event :=
  match j with
  | .obj fs =>
    { id := match fs.get? "id" with | some (.str s) => s | _ => ""
      type := match fs.get? "type" with | some (.str s) => s | _ => ""
      spaceId := match fs.get? "spaceId" with | some (.str s) => s | _ => ""
      timestamp := match fs.get? "timestamp" with | some (.str s) => s | _ => ""
      sequenceNumber := match fs.get? "sequenceNumber" with | some (.num q) => q | _ => 0
      hash := match fs.get? "hash" with | some (.str s) => s | _ => ""
      previousHash := match fs.get? "previousHash" with | some (.str s) => some s | _ => none
      version := match fs.get? "version" with | some (.num q) => q | _ => 0
      payload := match fs.get? "payload" with
        | some (.obj o) => o
        | some (.arr xs) => arrToIndexedObjAux 0 xs
        | _ => .nil }
  | _ => ⟨"", "", "", "", 0, "", none, 0, .nil⟩

mutual

/-- JS `String(x)` for a JSON value. -/
def jsToString : Json → String
  | .null => "null"
  | .bool true => "true"
  | .bool false => "false"
  | .num q => ratToDecimalString q
  | .str s => s
  | .arr xs => jsArrToString xs
  | .obj _ => "[object Object]"

/-- JS `Array.prototype.toString`: elements joined with commas. -/
def jsArrToString : JsonArr → String
  | .nil => ""
  | .cons x .nil => jsToString x
  | .cons x tl => jsToString x ++ "," ++ jsArrToString tl

end

/-- The reported id of a malformed archive entry: `String(raw.id)` if the
entry is an object with an `id`, otherwise `"unknown"`. -/
def rawEntryId : Json → String
  | .obj fs =>
    match fs.get? "id" with
    | some v => jsToString v
    | none => "unknown"
  | _ => "unknown"

/-- Group events by `spaceId`, in first-seen order (a JS `Map`). -/
def addToGroup : List (String × List Event) → Event → List (String × List Event)
  | [], e => [(e.spaceId, [e])]
  | (k, es) :: rest, e =>
    if k = e.spaceId then (k, es ++ [e]) :: rest else (k, es) :: addToGroup rest e

/-- Group a list of events by space. -/
def groupBySpace (events : List Event) : List (String × List Event) :=
  events.foldl addToGroup []

/-- The importer's per-space sort: by `sequenceNumber` only (a stable sort,
as `Array.prototype.sort`). -/
def seqOnlyLe (a b : Event) : Bool := a.sequenceNumber ≤ b.sequenceNumber

/-- The first space (in group order) whose sorted chain fails
`verifyChainLinks`, with the event at the broken index. -/
def firstBrokenChain : List (String × List Event) → Option (String × Option Event)
  | [] => none
  | (sid, es) :: rest =>
    let sorted := sortWith seqOnlyLe es
    let i := verifyChainLinks sorted
    if i ≥ 0 then some (sid, sorted.get? i.toNat) else firstBrokenChain rest

/-- The importer's insertion loop: skip events whose `id` already exists,
insert the rest. Returns `(importedEvents, skippedDuplicates, store)`. -/
def insertEvents (store : List Event) : List Event → Nat × Nat × List Event
  | [] => (0, 0, store)
  | e :: rest =>
    if store.any (fun x => x.id == e.id) then
      let r := insertEvents store rest
      (r.1, r.2.1 + 1, r.2.2)
    else
      let r := insertEvents (store ++ [e]) rest
      (r.1 + 1, r.2.1, r.2.2)

/-- The parse-and-verify stages of the importer operating on the decoded
JSON body: parse, require a top-level array, match the header count,
shape-check every entry, group by space, sort by sequence number and
verify the chain links. Returns the valid events and the per-entry shape
errors, or the first fatal error. -/
def importBodyPhase (eventCount : Nat) (jsonBody : String) :
    Except EventLogError (List Event × List (String × String)) :=
  match jsonParse jsonBody with
  | none => .error (.importFailed "Failed to parse archive JSON body" none)
  | some parsed =>
    match parsed with
    | .arr items =>
      let itemsL := items.toList
      if itemsL.length ≠ eventCount then
        .error (.importFailed ("Header declares " ++ toString eventCount ++
          " events but body contains " ++ toString itemsL.length) none)
      else
        let events := (itemsL.filter isValidEventShape).map toEventFromJson
        let errs := (itemsL.filter (fun j => ¬ isValidEventShape j)).map
          (fun j => (rawEntryId j, "Invalid event shape"))
        match firstBrokenChain (groupBySpace events) with
        | some (sid, brokenEvent) =>
          .error (.importFailed ("Hash chain integrity failed for space \"" ++ sid ++
            "\": event " ++ ((brokenEvent.map (fun e => e.id)).getD "unknown"))
            (brokenEvent.map (fun e => e.id)))
        | none => .ok (events, errs)
    | _ => .error (.importFailed "Archive body is not a JSON array" none)

/-- The byte-level stages of the importer: size check, header parse, body
and footer extraction, decompression, integrity-hash comparison, then the
body phase. Pure in `(decompress, archive)`. -/
def importParsePhase (decompress : List Nat → Option (List Nat)) (archive : List Nat) :
    Except EventLogError (List Event × List (String × String)) :=
  if archive.length < HEADER_SIZE + FOOTER_SIZE then
    .error (.importFailed "Archive is too small to be valid" none)
  else
    match parseHeader archive with
    | .error reason => .error (.importFailed reason none)
    | .ok (_, eventCount) =>
      let compressedBody :=
        (archive.drop HEADER_SIZE).take (archive.length - FOOTER_SIZE - HEADER_SIZE)
      let footerBytes := archive.drop (archive.length - FOOTER_SIZE)
      let expectedHash := textDecode footerBytes
      match decompress compressedBody with
      | none => .error (.importFailed "Failed to decompress archive body" none)
      | some jsonBytes =>
        let jsonBody := textDecode jsonBytes
        let actualHash := sha256hex jsonBody
        if actualHash ≠ expectedHash then
          .error (.importFailed ("Archive integrity check failed: expected hash " ++
            expectedHash ++ ", got " ++ actualHash) none)
        else importBodyPhase eventCount jsonBody

/-- `importArchive`: the ordered validation pipeline (size, header,
decompress, body hash, JSON parse, array shape, count), per-event shape
checks, per-space chain verification, then deduplicating insertion.
Inflate is the platform parameter `decompress` (`none` models a thrown
decompression error). Returns the result with the store after the call. -/
def importArchive (decompress : List Nat → Option (List Nat)) (store : List Event)
    (archive : List Nat) : Result ImportReport × List Event :=
  match importParsePhase decompress archive with
  | .error e => (.err e, store)
  | .ok (events, errs) =>
    let r := insertEvents store events
    (.ok ⟨r.1, r.2.1, errs⟩, r.2.2)

/-- A well-formed archive around a body: header with the given count, the
body's bytes (identity compression), and the body's SHA-256 hex footer. -/
def mkArchive (eventCount : Nat) (body : String) : List Nat :=
  encodeHeader eventCount ++ utf8Bytes body ++ utf8Bytes (sha256hex body)

/-! ### Concrete fixtures used by witnesses and counterexamples -/

/-- A sample stored event: sequence `i + 1`, timestamp at second `i`,
placeholder hashes (queries never inspect hashes). -/
def sampleEvent (i : Nat) : Event :=
  { id := "e" ++ toString i
    type := "state_changed"
    spaceId := "s"
    timestamp := "2026-02-14T00:00:0" ++ toString i ++ "Z"
    sequenceNumber := (i + 1 : ℚ)
    hash := "h" ++ toString i
    previousHash := if i = 0 then none else some ("h" ++ toString (i - 1))
    version := 1
    payload := .nil }

/-- Ten sample events at one-second intervals (the spec's time-range
boundary scenario). -/
def sampleStore : List Event := (List.range 10).map sampleEvent

/-- A forged event: the chain links are self-consistent but `hash` is not
the SHA-256 of the event's canonical serialization (it is not even 64
characters long). -/
def forgedEvent1 : Event :=
  ⟨"f1", "state_changed", "s", "2026-02-14T00:00:00Z", 1, "deadbeef1", none, 1, .nil⟩

/-- The second forged event; its `previousHash` equals `forgedEvent1.hash`. -/
def forgedEvent2 : Event :=
  ⟨"f2", "state_changed", "s", "2026-02-14T00:00:01Z", 2, "deadbeef2", some "deadbeef1", 1, .nil⟩

/-- The archive body serializing the two forged events. -/
def forgedBody : String := archiveBody [forgedEvent1, forgedEvent2]

/-- A well-formed archive (correct magic, version, count and body hash)
holding the two forged events, with the identity as the compression. -/
def forgedArchive : List Nat := mkArchive 2 forgedBody

/-- A pre-existing snapshot fixture pinned to event sequence 1. -/
def snapFix1 : Snapshot := ⟨"g1", "s", 1, "2026-02-14T00:00:00Z", .null, "hs1"⟩

/-- The snapshot a `createSnapshot` over `[sampleEvent 1]` after `snapFix1`
produces with the state-preserving reducer. -/
def snapFix2 : Snapshot :=
  ⟨"g2", "s", (sampleEvent 1).sequenceNumber, (sampleEvent 1).timestamp, Json.null,
   sha256hex (deterministicSerialize Json.null)⟩

/-- The storage report fixture of the pressure tests: only
`estimatedBytes` varies. -/
def makeReport (estimatedBytes : ℚ) : StorageReport :=
  ⟨100, 5, estimatedBytes, some "2026-01-01T00:00:00.000Z", some "2026-02-14T00:00:00.000Z", []⟩

/-- The `lengths 1..N` sequence-number prefix, as rationals. -/
def seqPrefix (n : Nat) : List ℚ :=
  (List.range n).map (fun i : Nat => ((i : ℚ) + 1))

/-- The pressure level the specification's inclusive lower bounds assign to
a usage ratio: `[0, 0.5)` NORMAL, `[0.5, 0.7)` COMPACT, `[0.7, 0.8)`
EXPORT_PROMPT, `[0.8, 0.9)` AGGRESSIVE, `[0.9, 1.0]` BLOCKED. -/
def specLevel (r : ℚ) : StoragePressureLevel :=
  if 0.9 ≤ r then .BLOCKED
  else if 0.8 ≤ r then .AGGRESSIVE
  else if 0.7 ≤ r then .EXPORT_PROMPT
  else if 0.5 ≤ r then .COMPACT
  else .NORMAL

/-- The level-specific recommendation string of each pressure level. -/
def recommendationFor : StoragePressureLevel → String
  | .BLOCKED =>
    "Storage usage exceeds 90%. Block new space creation and prompt for export or cleanup."
  | .AGGRESSIVE =>
    "Storage usage exceeds 80%. Auto-compact old spaces and create aggressive snapshots."
  | .EXPORT_PROMPT => "Storage usage exceeds 70%. Prompt user to export old data to archives."
  | .COMPACT => "Storage usage exceeds 50%. Consider compacting infrequently accessed spaces."
  | .NORMAL => "Storage usage is within normal limits. No action needed."

/-- The trivial timestamp validator (every string parses). -/
def tsAlwaysValid : String → Bool := fun _ => true

/-- The events stored for a space, in insertion order. -/
def spaceEvents (st : List Event) (spaceId : String) : List Event :=
  st.filter (fun e => e.spaceId == spaceId)

/-- The per-space chain invariant: for every space, the stored sequence
numbers are exactly `1..N` in order, and the source's own
`verifyChainLinks` check passes (null genesis `previousHash`, each later
event's `previousHash` equal to its predecessor's `hash`). -/
def chainInv (st : List Event) : Prop :=
  ∀ spaceId, ∃ n,
    (spaceEvents st spaceId).map (fun e => e.sequenceNumber) = seqPrefix n ∧
    verifyChainLinks (spaceEvents st spaceId) = -1

/-- Identity compression (a valid deflate behavior for the model's
purposes: the parameters are arbitrary functions). -/
def idCompress : List Nat → List Nat := fun x => x

/-- Identity decompression. -/
def idDecompress : List Nat → Option (List Nat) := some

/-! ## Theorems

General-purpose lemmas first, then the claim theorems. -/

theorem sortWith_length {α : Type} (le : α → α → Bool) (l : List α) :
    (sortWith le l).length = l.length := by
  induction l with
  | nil => rfl
  | cons x xs ih =>
    have : ∀ (y : α) (m : List α), (insertLe le y m).length = m.length + 1 := by
      intro y m
      induction m with
      | nil => rfl
      | cons z zs ihm =>
        simp only [insertLe]
        split
        · simp
        · simp [ihm]
    simp [sortWith, this, ih]

theorem insertLe_perm {α : Type} (le : α → α → Bool) (x : α) (l : List α) :
    (insertLe le x l).Perm (x :: l) := by
  induction l with
  | nil => simp [insertLe]
  | cons y ys ih =>
    simp only [insertLe]
    split
    · exact List.Perm.refl _
    · exact (List.Perm.cons y ih).trans (List.Perm.swap x y ys)

theorem sortWith_perm {α : Type} (le : α → α → Bool) (l : List α) :
    (sortWith le l).Perm l := by
  induction l with
  | nil => simp [sortWith]
  | cons x xs ih =>
    exact (insertLe_perm le x (sortWith le xs)).trans (ih.cons x)

theorem mem_sortWith {α : Type} (le : α → α → Bool) (l : List α) (x : α) :
    x ∈ sortWith le l ↔ x ∈ l :=
  (sortWith_perm le l).mem_iff

theorem insertLe_pairwise {α : Type} (le : α → α → Bool)
    (htot : ∀ a b, le a b = true ∨ le b a = true)
    (htrans : ∀ a b c, le a b = true → le b c = true → le a c = true) (x : α) (l : List α)
    (hl : l.Pairwise (fun a b => le a b = true)) :
    (insertLe le x l).Pairwise (fun a b => le a b = true) := by
  induction l with
  | nil => simp [insertLe]
  | cons y ys ih =>
    simp only [insertLe]
    rcases List.pairwise_cons.mp hl with ⟨hy, hys⟩
    split
    · rename_i hxy
      refine List.pairwise_cons.mpr ⟨?_, hl⟩
      intro z hz
      rcases List.mem_cons.mp hz with rfl | hz
      · exact hxy
      · exact htrans x y z hxy (hy z hz)
    · rename_i hxy
      refine List.pairwise_cons.mpr ⟨?_, ih hys⟩
      intro z hz
      rw [(insertLe_perm le x ys).mem_iff] at hz
      rcases List.mem_cons.mp hz with rfl | hz
      · rcases htot z y with h | h
        · exact absurd h (by simpa using hxy)
        · exact h
      · exact hy z hz

theorem sortWith_pairwise {α : Type} (le : α → α → Bool)
    (htot : ∀ a b, le a b = true ∨ le b a = true)
    (htrans : ∀ a b c, le a b = true → le b c = true → le a c = true) (l : List α) :
    (sortWith le l).Pairwise (fun a b => le a b = true) := by
  induction l with
  | nil => simp [sortWith]
  | cons x xs ih => exact insertLe_pairwise le htot htrans x _ ih

/-! ### Digest output shape: 64 lowercase hex ASCII characters -/

theorem byteToHex_mem_hexChars (b : Nat) (c : Char) (hc : c ∈ byteToHex b) :
    c ∈ hexChars := by
  have hlen : hexChars.length = 16 := by decide
  rcases List.mem_cons.mp hc with rfl | hc
  · have h : b / 16 % 16 < hexChars.length := by rw [hlen]; exact Nat.mod_lt _ (by decide)
    rw [List.getD_eq_getElem hexChars '0' h]
    exact List.getElem_mem h
  · rcases List.mem_cons.mp hc with rfl | hc
    · have h : b % 16 < hexChars.length := by rw [hlen]; exact Nat.mod_lt _ (by decide)
      rw [List.getD_eq_getElem hexChars '0' h]
      exact List.getElem_mem h
    · simp at hc

theorem hexChars_ascii : ∀ c ∈ hexChars, c.toNat < 128 := by decide

theorem hexChars_lower_hex :
    ∀ c ∈ hexChars, ('0' ≤ c ∧ c ≤ '9') ∨ ('a' ≤ c ∧ c ≤ 'f') := by decide

theorem flatMap_byteToHex_length (bs : List Nat) :
    (bs.flatMap byteToHex).length = 2 * bs.length := by
  induction bs with
  | nil => rfl
  | cons b rest ih => simp [byteToHex, ih, Nat.mul_add]

theorem sha256Bytes_length (msg : List Nat) : (sha256Bytes msg).length = 32 := by
  simp [sha256Bytes, wordBytes]

theorem sha256hex_length (s : String) : (sha256hex s).length = 64 := by
  show ((sha256Bytes (utf8Bytes s)).flatMap byteToHex).length = 64
  rw [flatMap_byteToHex_length, sha256Bytes_length]

theorem sha256hex_data (s : String) :
    (sha256hex s).data = (sha256Bytes (utf8Bytes s)).flatMap byteToHex := rfl

theorem sha256hex_chars (s : String) : ∀ c ∈ (sha256hex s).data, c ∈ hexChars := by
  intro c hc
  rw [sha256hex_data, List.mem_flatMap] at hc
  rcases hc with ⟨b, _, hc⟩
  exact byteToHex_mem_hexChars b c hc

/-! ### UTF-8 round-trip on ASCII strings -/

theorem utf8EncodeChar_ascii (c : Char) (h : c.toNat < 128) :
    utf8EncodeChar c = [c.toNat] := by
  simp [utf8EncodeChar, h]

theorem utf8DecodeAux_ascii (cs : List Char) (h : ∀ c ∈ cs, c.toNat < 128) :
    utf8DecodeAux (cs.flatMap utf8EncodeChar).length (cs.flatMap utf8EncodeChar) = cs := by
  induction cs with
  | nil => rfl
  | cons c rest ih =>
    have hc : c.toNat < 128 := h c (List.mem_cons_self c rest)
    have hrest : ∀ x ∈ rest, x.toNat < 128 := fun x hx => h x (List.mem_cons_of_mem c hx)
    have henc : (c :: rest).flatMap utf8EncodeChar =
        c.toNat :: rest.flatMap utf8EncodeChar := by
      simp [List.flatMap_cons, utf8EncodeChar_ascii c hc]
    rw [henc]
    show utf8DecodeAux ((rest.flatMap utf8EncodeChar).length + 1)
      (c.toNat :: rest.flatMap utf8EncodeChar) = c :: rest
    rw [utf8DecodeAux]
    have hstep : utf8DecodeStep c.toNat (rest.flatMap utf8EncodeChar) =
        (Char.ofNat c.toNat, rest.flatMap utf8EncodeChar) := by
      simp [utf8DecodeStep, hc]
    rw [hstep]
    simp only [Char.ofNat_toNat]
    exact congrArg (c :: ·) (ih hrest)

theorem textDecode_utf8Bytes_ascii (s : String) (h : ∀ c ∈ s.data, c.toNat < 128) :
    textDecode (utf8Bytes s) = s := by
  show String.mk (utf8DecodeAux (s.data.flatMap utf8EncodeChar).length
    (s.data.flatMap utf8EncodeChar)) = s
  rw [utf8DecodeAux_ascii s.data h]

theorem flatMap_utf8_ascii (l : List Char) (h : ∀ c ∈ l, c.toNat < 128) :
    l.flatMap utf8EncodeChar = l.map Char.toNat := by
  induction l with
  | nil => rfl
  | cons c rest ih =>
    have hc : c.toNat < 128 := h c (List.mem_cons_self c rest)
    rw [List.flatMap_cons, utf8EncodeChar_ascii c hc, List.map_cons]
    exact congrArg (c.toNat :: ·) (ih (fun x hx => h x (List.mem_cons_of_mem c hx)))

theorem utf8Bytes_ascii (s : String) (h : ∀ c ∈ s.data, c.toNat < 128) :
    utf8Bytes s = s.data.map Char.toNat :=
  flatMap_utf8_ascii s.data h

theorem sha256hex_ascii (s : String) : ∀ c ∈ (sha256hex s).data, c.toNat < 128 :=
  fun c hc => hexChars_ascii c (sha256hex_chars s c hc)

theorem textDecode_sha256hex (s : String) :
    textDecode (utf8Bytes (sha256hex s)) = sha256hex s :=
  textDecode_utf8Bytes_ascii _ (sha256hex_ascii s)

theorem utf8Bytes_sha256hex_length (s : String) :
    (utf8Bytes (sha256hex s)).length = 64 := by
  rw [utf8Bytes_ascii _ (sha256hex_ascii s), List.length_map]
  exact sha256hex_length s

/-! ### The chain-tail read and the per-space write invariant -/

theorem foldl_filter_eq {α β : Type} (p : α → Bool) (g : β → α → β) (l : List α)
    (acc : β) :
    (l.filter p).foldl g acc = l.foldl (fun a x => if p x then g a x else a) acc := by
  induction l generalizing acc with
  | nil => rfl
  | cons x xs ih =>
    by_cases h : p x
    · simp [h, ih]
    · simp [h, ih]

theorem lastEventOfSpace_eq_filter_foldl (st : List Event) (spaceId : String) :
    lastEventOfSpace st spaceId =
      (spaceEvents st spaceId).foldl
        (fun acc e =>
          match acc with
          | none => some e
          | some m =>
            if keyLt m.sequenceNumber m.id e.sequenceNumber e.id then some e else some m)
        none := by
  rw [spaceEvents, foldl_filter_eq]
  rfl

theorem foldl_pick_increasing (l : List Event)
    (hp : l.Pairwise (fun a b => a.sequenceNumber < b.sequenceNumber)) :
    l.foldl
      (fun acc e =>
        match acc with
        | none => some e
        | some m =>
          if keyLt m.sequenceNumber m.id e.sequenceNumber e.id then some e else some m)
      none = l.getLast? := by
  induction l using List.reverseRecOn with
  | nil => rfl
  | append_singleton l e ih =>
    rw [List.foldl_append, List.getLast?_concat]
    rcases List.pairwise_append.mp hp with ⟨hl, _, hrel⟩
    rw [ih hl]
    rcases hlast : l.getLast? with _ | m
    · rfl
    · have hm : m ∈ l := List.mem_of_getLast?_eq_some hlast
      have : m.sequenceNumber < e.sequenceNumber := hrel m hm e (List.mem_singleton_self e)
      simp [keyLt, this]

theorem seqPrefix_pairwise (n : Nat) : (seqPrefix n).Pairwise (· < ·) := by
  refine List.Pairwise.map _ ?_ (List.pairwise_lt_range n)
  intro a b hab
  have : (a : ℚ) < b := by exact_mod_cast hab
  linarith

theorem pairwise_of_map_seqPrefix (l : List Event) (n : Nat)
    (h : l.map (fun e => e.sequenceNumber) = seqPrefix n) :
    l.Pairwise (fun a b => a.sequenceNumber < b.sequenceNumber) := by
  have := seqPrefix_pairwise n
  rw [← h, List.pairwise_map] at this
  exact this

theorem seqPrefix_succ (n : Nat) : seqPrefix (n + 1) = seqPrefix n ++ [(n + 1 : ℚ)] := by
  show (List.range (n + 1)).map _ = _
  rw [List.range_succ, List.map_append]
  rfl

theorem seqPrefix_getLast? (n : Nat) :
    (seqPrefix (n + 1)).getLast? = some ((n : ℚ) + 1) := by
  rw [seqPrefix_succ, List.getLast?_concat]

theorem verifyChainLinksAux_append (l : List Event) (e : Event) :
    ∀ (prev : String) (i : Nat), verifyChainLinksAux l prev i = -1 →
    e.previousHash = some (((l.getLast?).map (fun m => m.hash)).getD prev) →
    verifyChainLinksAux (l ++ [e]) prev i = -1 := by
  induction l with
  | nil =>
    intro prev i _ he
    have he' : e.previousHash = some prev := he
    show verifyChainLinksAux [e] prev i = -1
    rw [verifyChainLinksAux, if_pos he']
    rfl
  | cons x rest ih =>
    intro prev i h he
    rw [verifyChainLinksAux] at h
    by_cases hx : x.previousHash = some prev
    · rw [if_pos hx] at h
      show verifyChainLinksAux (x :: (rest ++ [e])) prev i = -1
      rw [verifyChainLinksAux, if_pos hx]
      refine ih x.hash (i + 1) h ?_
      rcases hrest : rest.getLast? with _ | m
      · have hnil : rest = [] := List.getLast?_eq_none_iff.mp hrest
        subst hnil
        simpa using he
      · have hcons : (x :: rest).getLast? = some m := by
          rcases rest with _ | ⟨y, ys⟩
          · simp at hrest
          · rw [List.getLast?_cons_cons]; exact hrest
        rw [hcons] at he
        simpa using he
    · rw [if_neg hx] at h
      exact absurd h (by simp)

theorem verifyChainLinks_append (l : List Event) (e : Event)
    (h : verifyChainLinks l = -1)
    (hgen : l = [] → e.previousHash = none)
    (hlink : ∀ m, l.getLast? = some m → e.previousHash = some m.hash) :
    verifyChainLinks (l ++ [e]) = -1 := by
  rcases l with _ | ⟨x, rest⟩
  · show verifyChainLinks [e] = -1
    rw [verifyChainLinks, if_pos (hgen rfl)]
    rfl
  · rw [verifyChainLinks] at h
    by_cases hx : x.previousHash = none
    · rw [if_pos hx] at h
      show verifyChainLinks (x :: (rest ++ [e])) = -1
      rw [verifyChainLinks, if_pos hx]
      refine verifyChainLinksAux_append rest e x.hash 1 h ?_
      rcases hrest : rest.getLast? with _ | m
      · have hnil : rest = [] := List.getLast?_eq_none_iff.mp hrest
        subst hnil
        exact hlink x (by simp)
      · have hcons : (x :: rest).getLast? = some m := by
          rcases rest with _ | ⟨y, ys⟩
          · simp at hrest
          · rw [List.getLast?_cons_cons]; exact hrest
        simpa using hlink m hcons
    · rw [if_neg hx] at h
      exact absurd h (by simp)

theorem spaceEvents_append_one (st : List Event) (e : Event) (spaceId : String) :
    spaceEvents (st ++ [e]) spaceId =
      spaceEvents st spaceId ++ (if e.spaceId == spaceId then [e] else []) := by
  rw [spaceEvents, List.filter_append]
  by_cases h : e.spaceId == spaceId
  · simp [spaceEvents, h]
  · simp only [spaceEvents]
    rw [if_neg h]
    simp [List.filter, (by simpa using h : (e.spaceId == spaceId) = false)]

theorem chainInv_nil : chainInv [] := by
  intro spaceId
  refine ⟨0, ?_, ?_⟩
  · simp [spaceEvents, seqPrefix]
  · rfl

theorem writeEvent_preserves_chainInv (validTs : String → Bool) (st : List Event)
    (input : WriteEventInput) (genId : String) (h : chainInv st) :
    chainInv (writeEvent validTs st input genId).2 := by
  rcases hval : validateInput validTs input with _ | err
  case some => simpa [writeEvent, hval] using h
  case none =>
    by_cases hdup : st.any (fun x => x.id == genId)
    · simpa [writeEvent, hval, hdup] using h
    · have hst : (writeEvent validTs st input genId).2 = st ++
          [⟨genId, input.type, input.spaceId, input.timestamp,
            getNextSequenceNumber st input.spaceId,
            computeEventHash genId input.type input.spaceId input.timestamp
              (getNextSequenceNumber st input.spaceId)
              (getLastEventHash st input.spaceId) input.version input.payload,
            getLastEventHash st input.spaceId, input.version, input.payload⟩] := by
        simp [writeEvent, hval, hdup]
      rw [hst]
      intro spaceId
      by_cases hsp : input.spaceId == spaceId
      case neg =>
        rcases h spaceId with ⟨n, hmap, hver⟩
        refine ⟨n, ?_, ?_⟩
        · rw [spaceEvents_append_one, if_neg (by simpa using hsp), List.append_nil]
          exact hmap
        · rw [spaceEvents_append_one, if_neg (by simpa using hsp), List.append_nil]
          exact hver
      case pos =>
        rcases h spaceId with ⟨n, hmap, hver⟩
        have hpair := pairwise_of_map_seqPrefix _ n hmap
        have hlastEq : lastEventOfSpace st spaceId = (spaceEvents st spaceId).getLast? := by
          rw [lastEventOfSpace_eq_filter_foldl]
          exact foldl_pick_increasing _ hpair
        have hspEq : input.spaceId = spaceId := by simpa using hsp
        rw [spaceEvents_append_one]
        rw [if_pos (by simpa using hsp)]
        rcases n with _ | m
        · -- the space was empty: genesis write
          have hempty : spaceEvents st spaceId = [] := by
            have h0 : (spaceEvents st spaceId).map (fun e => e.sequenceNumber) = [] := by
              rw [hmap]; rfl
            exact List.map_eq_nil_iff.mp h0
          have hlast : lastEventOfSpace st spaceId = none := by
            rw [hlastEq, hempty]; rfl
          have hprev : getLastEventHash st input.spaceId = none := by
            rw [getLastEventHash, hspEq, hlast]; rfl
          have hseq : getNextSequenceNumber st input.spaceId = 1 := by
            rw [getNextSequenceNumber, hspEq, hlast]
          refine ⟨1, ?_, ?_⟩
          · rw [hempty]
            simp only [List.nil_append, List.map_cons, List.map_nil, hseq]
            rw [seqPrefix]
            norm_num [List.range_succ]
          · rw [hempty]
            simp only [List.nil_append]
            rw [verifyChainLinks, if_pos (by simpa using hprev)]
            rfl
        · -- the space already holds events 1..m+1
          have hne : spaceEvents st spaceId ≠ [] := by
            intro hcon
            rw [hcon] at hmap
            rw [seqPrefix_succ] at hmap
            simp at hmap
          rcases hgl : (spaceEvents st spaceId).getLast? with _ | lastE
          · exact absurd (List.getLast?_eq_none_iff.mp hgl) hne
          have hlastSeq : lastE.sequenceNumber = (m : ℚ) + 1 := by
            have h1 : ((spaceEvents st spaceId).map (fun e => e.sequenceNumber)).getLast? =
                some ((m : ℚ) + 1) := by rw [hmap]; exact seqPrefix_getLast? m
            rw [List.getLast?_map, hgl] at h1
            simpa using h1
          have hlast : lastEventOfSpace st spaceId = some lastE := by rw [hlastEq, hgl]
          have hprev : getLastEventHash st input.spaceId = some lastE.hash := by
            rw [getLastEventHash, hspEq, hlast]; rfl
          have hseq : getNextSequenceNumber st input.spaceId = (m : ℚ) + 2 := by
            simp only [getNextSequenceNumber, hspEq, hlast]
            rw [hlastSeq]; ring
          refine ⟨m + 2, ?_, ?_⟩
          · rw [List.map_append, hmap]
            have hcast : ((m + 1 : ℕ) : ℚ) + 1 = (m : ℚ) + 2 := by push_cast; ring
            have h2 : seqPrefix (m + 2) = seqPrefix (m + 1) ++ [(m : ℚ) + 2] := by
              rw [seqPrefix_succ, hcast]
            rw [h2]
            simp [hseq]
          · refine verifyChainLinks_append _ _ hver (fun hcon => absurd hcon hne) ?_
            intro m' hm'
            rw [hgl] at hm'
            rcases hm'
            simpa using hprev

theorem applyWrites_chainInv (validTs : String → Bool) (ops : List (WriteEventInput × String)) :
    ∀ st, chainInv st → chainInv (applyWrites validTs ops st) := by
  induction ops with
  | nil => intro st h; exact h
  | cons op rest ih =>
    intro st h
    exact ih _ (writeEvent_preserves_chainInv validTs st op.1 op.2 h)

/-- C1: after every sequence of `writeEvent` calls starting from an empty
store, each space's stored events carry sequence numbers exactly
`1, 2, …, N` in order (no gaps, duplicates or reordering), and the
source's `verifyChainLinks` accepts the space's event list: the genesis
event's `previousHash` is null and every later event's `previousHash`
equals the predecessor's `hash`. -/
theorem C1_write_chain_invariant (validTs : String → Bool)
    (ops : List (WriteEventInput × String)) (spaceId : String) :
    ∃ n, (spaceEvents (applyWrites validTs ops []) spaceId).map
        (fun e => e.sequenceNumber) = seqPrefix n ∧
      verifyChainLinks (spaceEvents (applyWrites validTs ops []) spaceId) = -1 :=
  applyWrites_chainInv validTs ops [] chainInv_nil spaceId

/-- C2: every event a successful `writeEvent` returns carries as its `hash`
the SHA-256 (lowercase hex, 64 characters) of the deterministic
serialization of the record holding exactly the eight fields `id`, `type`,
`spaceId`, `timestamp`, `sequenceNumber`, `previousHash` (null for
genesis), `version` and `payload` — the `hash` field itself excluded. -/
theorem C2_event_hash_canonical (validTs : String → Bool) (st : List Event)
    (input : WriteEventInput) (genId : String) :
    match (writeEvent validTs st input genId).1 with
    | .ok e =>
        e.hash = sha256hex (deterministicSerialize
          (hashInputJson e.id e.type e.spaceId e.timestamp e.sequenceNumber
            e.previousHash e.version e.payload)) ∧
        e.hash.length = 64 ∧ ∀ c ∈ e.hash.data, c ∈ hexChars
    | .err _ => True := by
  rcases hval : validateInput validTs input with _ | err
  case some => simp [writeEvent, hval]
  case none =>
    by_cases hdup : st.any (fun x => x.id == genId)
    · simp [writeEvent, hval, hdup]
    · simp only [writeEvent, hval, hdup, Bool.false_eq_true, if_false]
      exact ⟨rfl, sha256hex_length _, sha256hex_chars _⟩

/-- C4 (code bug): the write pipeline's validation accepts a non-integer
`version`. With `version = 3/2` — a number that is not an integer, so the
specified rule «`version` is an integer ≥ 1» requires `InvalidEvent` —
`validateInput` returns no error and `writeEvent` succeeds; the code's
check is only `version < 1` although its own error message reads "must be
a positive integer". -/
theorem C4_noninteger_version_accepted :
    ((3 : ℚ) / 2).den ≠ 1 ∧ (1 : ℚ) ≤ (3 : ℚ) / 2 ∧
    validateInput tsAlwaysValid
      ⟨"state_changed", "s", "2026-02-14T00:00:00Z", (3 : ℚ) / 2, .nil⟩ = none ∧
    (writeEvent tsAlwaysValid []
      ⟨"state_changed", "s", "2026-02-14T00:00:00Z", (3 : ℚ) / 2, .nil⟩ "e-1").1.isOk = true := by
  refine ⟨by with_unfolding_all decide, by with_unfolding_all decide, ?_, ?_⟩
  · with_unfolding_all decide
  · with_unfolding_all decide

/-- C9: the pressure classifier is pure; with a positive budget the usage
ratio is `min(estimatedBytes / availableBytes, 1)` and the level follows
the inclusive lower bounds `[0, 0.5)` NORMAL, `[0.5, 0.7)` COMPACT,
`[0.7, 0.8)` EXPORT_PROMPT, `[0.8, 0.9)` AGGRESSIVE, `[0.9, 1]` BLOCKED,
each with its own distinct recommendation string; with a non-positive
budget the ratio is 1 and the level BLOCKED. -/
theorem C9_pressure_classifier (report : StorageReport) (availableBytes : ℚ) :
    (availableBytes ≤ 0 → getStoragePressure report availableBytes =
      ⟨.BLOCKED, 1, "Storage budget is zero or negative — all writes should be blocked."⟩) ∧
    (0 < availableBytes →
      getStoragePressure report availableBytes =
        ⟨specLevel (min (report.estimatedBytes / availableBytes) 1),
         min (report.estimatedBytes / availableBytes) 1,
         recommendationFor (specLevel (min (report.estimatedBytes / availableBytes) 1))⟩) ∧
    (∀ l₁ l₂ : StoragePressureLevel, recommendationFor l₁ = recommendationFor l₂ → l₁ = l₂) := by
  refine ⟨?_, ?_, ?_⟩
  · intro h
    rw [getStoragePressure, if_pos h]
  · intro h
    rw [getStoragePressure, if_neg (not_le.mpr h)]
    simp only [specLevel, ge_iff_le]
    split_ifs <;> rfl
  · intro l₁ l₂ h
    cases l₁ <;> cases l₂ <;> first | rfl | exact absurd h (by decide)

/-! ### Snapshot-manager lemmas -/

theorem lastSnapshotOfSpace_max (spaceId : String) (l : List Snapshot) :
    ∀ (acc : Option Snapshot) (m : Snapshot),
    l.foldl
      (fun acc s =>
        if s.spaceId == spaceId then
          match acc with
          | none => some s
          | some x =>
            if keyLt x.eventSequenceNumber x.id s.eventSequenceNumber s.id then some s
            else some x
        else acc)
      acc = some m →
    (∀ x, acc = some x → x.eventSequenceNumber ≤ m.eventSequenceNumber) ∧
    (∀ s ∈ l, s.spaceId = spaceId → s.eventSequenceNumber ≤ m.eventSequenceNumber) := by
  induction l with
  | nil =>
    intro acc m h
    refine ⟨?_, by simp⟩
    intro x hx
    rw [hx] at h
    simp only [List.foldl_nil, Option.some.injEq] at h
    rw [h]
  | cons s rest ih =>
    intro acc m h
    rw [List.foldl_cons] at h
    rcases ih _ m h with ⟨hacc, hrest⟩
    by_cases hs : s.spaceId == spaceId
    · have hsle : s.eventSequenceNumber ≤ m.eventSequenceNumber := by
        rcases acc with _ | x
        · exact hacc s (by simp [hs])
        · by_cases hk : keyLt x.eventSequenceNumber x.id s.eventSequenceNumber s.id
          · exact hacc s (by simp [hs, hk])
          · have hxm : x.eventSequenceNumber ≤ m.eventSequenceNumber :=
              hacc x (by simp [hs, hk])
            have hsx : ¬ (x.eventSequenceNumber < s.eventSequenceNumber ∨
                (x.eventSequenceNumber = s.eventSequenceNumber ∧ x.id < s.id)) := by
              simpa [keyLt] using hk
            push_neg at hsx
            linarith [hsx.1]
      refine ⟨?_, ?_⟩
      · intro x hx
        subst hx
        by_cases hk : keyLt x.eventSequenceNumber x.id s.eventSequenceNumber s.id
        · have : x.eventSequenceNumber < s.eventSequenceNumber ∨
              (x.eventSequenceNumber = s.eventSequenceNumber ∧ x.id < s.id) := by
            simpa [keyLt] using hk
          rcases this with hlt | ⟨heq, _⟩
          · linarith
          · rw [heq]; exact hsle
        · exact hacc x (by simp [hs, hk])
      · intro t ht hts
        rcases List.mem_cons.mp ht with rfl | ht
        · exact hsle
        · exact hrest t ht hts
    · refine ⟨?_, ?_⟩
      · intro x hx
        subst hx
        exact hacc x (by simp [hs])
      · intro t ht hts
        rcases List.mem_cons.mp ht with rfl | ht
        · exact absurd hts (by simpa using hs)
        · exact hrest t ht hts

theorem lastSnapshotOfSpace_le (snaps : List Snapshot) (spaceId : String) (m : Snapshot)
    (h : lastSnapshotOfSpace snaps spaceId = some m) :
    ∀ s ∈ snaps, s.spaceId = spaceId → s.eventSequenceNumber ≤ m.eventSequenceNumber :=
  (lastSnapshotOfSpace_max spaceId snaps none m h).2

theorem lastSnapshotOfSpace_none (spaceId : String) (l : List Snapshot) :
    ∀ (acc : Option Snapshot),
    l.foldl
      (fun acc s =>
        if s.spaceId == spaceId then
          match acc with
          | none => some s
          | some x =>
            if keyLt x.eventSequenceNumber x.id s.eventSequenceNumber s.id then some s
            else some x
        else acc)
      acc = none →
    ∀ s ∈ l, s.spaceId ≠ spaceId := by
  induction l with
  | nil => intro acc _ s hs; simp at hs
  | cons s rest ih =>
    intro acc h t ht
    rw [List.foldl_cons] at h
    by_cases hs : s.spaceId == spaceId
    · exfalso
      -- with a matching head the accumulator can never return to `none`
      have : ∀ (l' : List Snapshot) (x : Snapshot),
          l'.foldl
            (fun acc s =>
              if s.spaceId == spaceId then
                match acc with
                | none => some s
                | some x =>
                  if keyLt x.eventSequenceNumber x.id s.eventSequenceNumber s.id then some s
                  else some x
              else acc)
            (some x) ≠ none := by
        intro l'
        induction l' with
        | nil => intro x hx; simp at hx
        | cons u us ihu =>
          intro x hx
          rw [List.foldl_cons] at hx
          by_cases hu : u.spaceId == spaceId
          · by_cases hk : keyLt x.eventSequenceNumber x.id u.eventSequenceNumber u.id
            · exact ihu u (by simpa [hu, hk] using hx)
            · exact ihu x (by simpa [hu, hk] using hx)
          · exact ihu x (by simpa [hu] using hx)
      rcases acc with _ | x
      · exact this rest s (by simpa [hs] using h)
      · by_cases hk : keyLt x.eventSequenceNumber x.id s.eventSequenceNumber s.id
        · exact this rest s (by simpa [hs, hk] using h)
        · exact this rest x (by simpa [hs, hk] using h)
    · rcases List.mem_cons.mp ht with rfl | ht
      · simpa using hs
      · exact ih _ (by simpa [hs] using h) t ht

/-- C3: `createSnapshot` fails with `SnapshotFailed` when the space has no
events at all, and when a snapshot exists and no event of the space has a
sequence number above it; when it succeeds, the inserted snapshot's
`eventSequenceNumber` strictly exceeds that of every snapshot previously
stored for the space. -/
theorem C3_snapshot_advance (events : List Event) (snaps : List Snapshot) (spaceId : String)
    (stateReducer : Json → Event → Json) (genId : String) :
    ((events.filter (fun e => e.spaceId == spaceId)) = [] →
      ∃ reason, (createSnapshot events snaps spaceId stateReducer genId).1 =
        .err (.snapshotFailed spaceId reason)) ∧
    (∀ m, lastSnapshotOfSpace snaps spaceId = some m →
      (∀ e ∈ events, e.spaceId = spaceId →
        e.sequenceNumber ≤ m.eventSequenceNumber) →
      (createSnapshot events snaps spaceId stateReducer genId).1 =
        .err (.snapshotFailed spaceId "No new events since last snapshot")) ∧
    (∀ snap snaps', createSnapshot events snaps spaceId stateReducer genId = (.ok snap, snaps') →
      ∀ old ∈ snaps, old.spaceId = spaceId →
        old.eventSequenceNumber < snap.eventSequenceNumber) := by
  refine ⟨?_, ?_, ?_⟩
  · intro hempty
    have hnil : ∀ (q : ℚ), events.filter (fun e =>
        e.spaceId == spaceId && decide (q ≤ e.sequenceNumber)) = [] := by
      intro q
      rw [List.filter_eq_nil_iff]
      intro e he hcon
      rw [Bool.and_eq_true] at hcon
      have : e ∈ events.filter (fun e => e.spaceId == spaceId) :=
        List.mem_filter.mpr ⟨he, hcon.1⟩
      rw [hempty] at this
      simp at this
    rcases hsnap : lastSnapshotOfSpace snaps spaceId with _ | m
    · refine ⟨"No events found for space", ?_⟩
      simp [createSnapshot, hsnap, hnil, sortWith]
    · refine ⟨"No new events since last snapshot", ?_⟩
      simp [createSnapshot, hsnap, hnil, sortWith]
  · intro m hsnap hle
    have hnil : events.filter (fun e =>
        e.spaceId == spaceId &&
          decide (m.eventSequenceNumber + 1 ≤ e.sequenceNumber)) = [] := by
      rw [List.filter_eq_nil_iff]
      intro e he hcon
      rw [Bool.and_eq_true, decide_eq_true_iff] at hcon
      have h1 : e.sequenceNumber ≤ m.eventSequenceNumber :=
        hle e he (by simpa using hcon.1)
      linarith [hcon.2]
    simp [createSnapshot, hsnap, hnil, sortWith]
  · intro snap snaps' h hold holdMem holdSp
    rcases hsnap : lastSnapshotOfSpace snaps spaceId with _ | m
    · exact absurd holdSp (lastSnapshotOfSpace_none spaceId snaps none hsnap hold holdMem)
    · have hmax := lastSnapshotOfSpace_le snaps spaceId m hsnap hold holdMem holdSp
      -- extract the success branch of `createSnapshot`
      rw [createSnapshot] at h
      rw [hsnap] at h
      set newEvents := sortWith seqIdLe (events.filter (fun e =>
        e.spaceId == spaceId &&
          decide (m.eventSequenceNumber + 1 ≤ e.sequenceNumber))) with hnew
      by_cases hemp : newEvents.isEmpty && (Option.some m).isNone
      · rw [if_pos hemp] at h
        simp at h
      · rw [if_neg hemp] at h
        rcases hlast : newEvents.getLast? with _ | lastEvent
        · rw [hlast] at h
          simp at h
        · rw [hlast] at h
          dsimp only at h
          by_cases hdup : snaps.any (fun s => s.id == genId)
          · rw [if_pos hdup] at h
            simp at h
          · rw [if_neg hdup] at h
            have hseq : snap.eventSequenceNumber = lastEvent.sequenceNumber := by
              have h1 := congrArg Prod.fst h
              simp only at h1
              injection h1 with h2
              rw [← h2]
            have hmem : lastEvent ∈ newEvents := List.mem_of_getLast?_eq_some hlast
            rw [hnew, mem_sortWith] at hmem
            rcases List.mem_filter.mp hmem with ⟨_, hcond⟩
            rw [Bool.and_eq_true, decide_eq_true_iff] at hcond
            rw [hseq]
            linarith [hcond.2]

/-- Witness for C3: with `snapFix1` (sequence 1) stored and a new event at
sequence 2, `createSnapshot` succeeds and the inserted snapshot strictly
advances the space's snapshot sequence. -/
theorem C3_snapshot_advance_witness :
    createSnapshot [sampleEvent 1] [snapFix1] "s" (fun s _ => s) "g2" =
      (.ok snapFix2, [snapFix1, snapFix2]) ∧
    snapFix1.eventSequenceNumber < snapFix2.eventSequenceNumber := by
  have h : createSnapshot [sampleEvent 1] [snapFix1] "s" (fun s _ => s) "g2" =
      (.ok snapFix2, [snapFix1, snapFix2]) := by
    with_unfolding_all rfl
  exact ⟨h,
    (C3_snapshot_advance [sampleEvent 1] [snapFix1] "s" (fun s _ => s) "g2").2.2
      snapFix2 [snapFix1, snapFix2] h snapFix1 (by simp) rfl⟩

/-! ### Query-engine lemmas -/

theorem seqIdLe_iff (a b : Event) :
    seqIdLe a b = true ↔
      a.sequenceNumber < b.sequenceNumber ∨
        (a.sequenceNumber = b.sequenceNumber ∧ a.id ≤ b.id) := by
  simp [seqIdLe]

theorem seqIdLe_total (a b : Event) : seqIdLe a b = true ∨ seqIdLe b a = true := by
  rw [seqIdLe_iff, seqIdLe_iff]
  rcases lt_trichotomy a.sequenceNumber b.sequenceNumber with h | h | h
  · exact Or.inl (Or.inl h)
  · rcases le_total a.id b.id with hid | hid
    · exact Or.inl (Or.inr ⟨h, hid⟩)
    · exact Or.inr (Or.inr ⟨h.symm, hid⟩)
  · exact Or.inr (Or.inl h)

theorem seqIdLe_trans (a b c : Event) (hab : seqIdLe a b = true) (hbc : seqIdLe b c = true) :
    seqIdLe a c = true := by
  rw [seqIdLe_iff] at hab hbc ⊢
  rcases hab with h₁ | ⟨h₁, h₁'⟩ <;> rcases hbc with h₂ | ⟨h₂, h₂'⟩
  · exact Or.inl (h₁.trans h₂)
  · exact Or.inl (h₂ ▸ h₁)
  · exact Or.inl (h₁ ▸ h₂)
  · exact Or.inr ⟨h₁.trans h₂, le_trans h₁' h₂'⟩

theorem cursorKeep_none (ord : OrderDir) (l : List Event) :
    l.filter (cursorKeep none ord) = l :=
  List.filter_eq_self.mpr (fun _ _ => rfl)

theorem queryByTime_default (validTs : String → Bool) (events : List Event)
    (tsFrom tsTo : String) (hf : validTs tsFrom = true) (ht : validTs tsTo = true) :
    queryByTime validTs events tsFrom tsTo none =
      .ok ⟨(sortWith seqIdLe (sortWith tsIdLe (events.filter (inTimeRange tsFrom tsTo)))).take 100,
        (if 100 <
            (sortWith seqIdLe (sortWith tsIdLe (events.filter (inTimeRange tsFrom tsTo)))).length
         then ((sortWith seqIdLe
            (sortWith tsIdLe (events.filter (inTimeRange tsFrom tsTo)))).take 100).getLast?.map
            (fun e => encodeCursor e.sequenceNumber e.id)
         else none),
        (events.filter (inTimeRange tsFrom tsTo)).length⟩ := by
  rw [queryByTime, if_neg (by simp [hf]), if_neg (by simp [ht])]
  have hro : resolveOptions none = ⟨100, none, OrderDir.asc, none⟩ := rfl
  rw [hro]
  dsimp only
  rw [if_neg (by simp)]
  simp only [orderEvents, cursorKeep_none, Int.toNat_ofNat]
  rfl

/-- C5: `queryByTime` rejects an invalid `from` (naming the field `from`)
or `to`; on valid bounds it selects exactly the events whose timestamp lies
in `[from, to)` — `total` is their count — orders the returned page by
`(sequenceNumber, id)` ascending, and pages at the default limit 100 with
`nextCursor` present only beyond a full page. -/
theorem C5_time_range_query (validTs : String → Bool) (events : List Event)
    (tsFrom tsTo : String) :
    (validTs tsFrom = false →
      queryByTime validTs events tsFrom tsTo none =
        .err (.invalidQuery "from" "Invalid ISO 8601 timestamp")) ∧
    (validTs tsFrom = true → validTs tsTo = false →
      queryByTime validTs events tsFrom tsTo none =
        .err (.invalidQuery "to" "Invalid ISO 8601 timestamp")) ∧
    (validTs tsFrom = true → validTs tsTo = true →
      (∀ e, e ∈ sortWith seqIdLe (sortWith tsIdLe (events.filter (inTimeRange tsFrom tsTo))) ↔
        (e ∈ events ∧ (tsFrom ≤ e.timestamp ∧ e.timestamp < tsTo))) ∧
      ((sortWith seqIdLe (sortWith tsIdLe (events.filter (inTimeRange tsFrom tsTo)))).take
          100).Pairwise (fun a b => seqIdLe a b = true) ∧
      queryByTime validTs events tsFrom tsTo none =
        .ok ⟨(sortWith seqIdLe
            (sortWith tsIdLe (events.filter (inTimeRange tsFrom tsTo)))).take 100,
          (if 100 <
              (sortWith seqIdLe (sortWith tsIdLe (events.filter (inTimeRange tsFrom tsTo)))).length
           then ((sortWith seqIdLe
              (sortWith tsIdLe (events.filter (inTimeRange tsFrom tsTo)))).take 100).getLast?.map
              (fun e => encodeCursor e.sequenceNumber e.id)
           else none),
          (events.filter (inTimeRange tsFrom tsTo)).length⟩) := by
  refine ⟨?_, ?_, ?_⟩
  · intro hf
    rw [queryByTime, if_pos (by simp [hf])]
  · intro hf ht
    rw [queryByTime, if_neg (by simp [hf]), if_pos (by simp [ht])]
  · intro hf ht
    refine ⟨?_, ?_, queryByTime_default validTs events tsFrom tsTo hf ht⟩
    · intro e
      rw [mem_sortWith, mem_sortWith, List.mem_filter]
      simp [inTimeRange]
    · exact ((sortWith_pairwise seqIdLe seqIdLe_total seqIdLe_trans _).sublist
        (List.take_sublist _ _))

/-- Witness for C5: the spec's boundary scenario — ten events at one-second
intervals, `queryByTime` over `[second 3, second 7)` returns exactly the
four events at seconds 3–6, `total = 4`, no `nextCursor`. -/
theorem C5_time_range_query_witness :
    tsAlwaysValid "2026-02-14T00:00:03Z" = true ∧
    queryByTime tsAlwaysValid sampleStore "2026-02-14T00:00:03Z" "2026-02-14T00:00:07Z" none =
      .ok ⟨[sampleEvent 3, sampleEvent 4, sampleEvent 5, sampleEvent 6], none, 4⟩ :=
  ⟨rfl,
    ((C5_time_range_query tsAlwaysValid sampleStore "2026-02-14T00:00:03Z"
        "2026-02-14T00:00:07Z").2.2 rfl rfl).2.2.trans (by with_unfolding_all decide)⟩

theorem resolveOptions_limit_pos (options : Option QueryOptions) :
    1 ≤ (resolveOptions options).limit :=
  le_min (le_max_left 1 _) (by norm_num)

theorem resolveOptions_limit_toNat_pos (options : Option QueryOptions) :
    1 ≤ (resolveOptions options).limit.toNat := by
  have := resolveOptions_limit_pos options
  omega

theorem paginate_eq (m : List Event) (limit : Int) (total : Nat) :
    paginate m limit total =
      ⟨m.take limit.toNat,
       (if limit.toNat < m.length
        then (m.take limit.toNat).getLast?.map (fun e => encodeCursor e.sequenceNumber e.id)
        else none),
       total⟩ := by
  rw [paginate]
  have h1 : (m.take (limit.toNat + 1)).take limit.toNat = m.take limit.toNat := by
    rw [List.take_take]
    congr 1
    omega
  have h2 : (m.take (limit.toNat + 1)).length > limit.toNat ↔ limit.toNat < m.length := by
    rw [List.length_take]
    omega
  by_cases hm : limit.toNat < m.length
  · rw [if_pos (h2.mpr hm), if_pos hm, h1]
  · rw [if_neg (fun hcon => hm (h2.mp hcon)), if_neg hm, h1]

theorem pageResult_facts (m : List Event) (L : Nat) (hL : 1 ≤ L) (total : Nat)
    (r : PaginatedResult)
    (hr : r = ⟨m.take L,
      (if L < m.length
       then (m.take L).getLast?.map (fun e => encodeCursor e.sequenceNumber e.id)
       else none), total⟩) :
    r.items.length ≤ L ∧ r.items = m.take L ∧ r.total = total ∧
    (r.nextCursor = none ↔ m.length ≤ L) ∧
    (L < m.length → ∃ e, r.items.getLast? = some e ∧
      r.nextCursor = some (encodeCursor e.sequenceNumber e.id)) := by
  subst hr
  have htake : (m.take L).length = min L m.length := List.length_take L m
  refine ⟨by rw [htake]; exact min_le_left _ _, rfl, rfl, ?_, ?_⟩
  · by_cases hm : L < m.length
    · rw [if_pos hm]
      have hne : m.take L ≠ [] := by
        intro hcon
        rcases List.take_eq_nil_iff.mp hcon with h0 | h0
        all_goals first
          | omega
          | (rw [h0] at hm; simp at hm)
      rcases Option.isSome_iff_exists.mp (List.getLast?_isSome.mpr hne) with ⟨e, he⟩
      rw [he]
      constructor
      · intro hcon; simp at hcon
      · intro hcon; omega
    · rw [if_neg hm]
      constructor
      · intro _; omega
      · intro _; rfl
  · intro hm
    rw [if_pos hm]
    have hne : m.take L ≠ [] := by
      intro hcon
      rcases List.take_eq_nil_iff.mp hcon with h0 | h0
      all_goals first
        | omega
        | (rw [h0] at hm; simp at hm)
    rcases Option.isSome_iff_exists.mp (List.getLast?_isSome.mpr hne) with ⟨e, he⟩
    exact ⟨e, he, by simp [he]⟩

/-- C6: for all three queries the effective page size is the requested
limit clamped to `[1, 1000]` (0 becomes 1, 1001 becomes 1000, default 100,
ascending by default); a successful page holds at most that many items,
and `nextCursor` is present — encoding the `(sequenceNumber, id)` of the
last retained item — exactly when a further matching row exists past the
returned page. -/
theorem C6_pagination_contract (validTs : String → Bool) (events : List Event)
    (spaceId type tsFrom tsTo : String) (options : Option QueryOptions) :
    (resolveOptions options).limit =
      min (max 1 ((options.bind (fun o => o.limit)).getD 100)) 1000 ∧
    (resolveOptions none).limit = 100 ∧
    (resolveOptions none).order = .asc ∧
    (resolveOptions (some ⟨some 0, none, none⟩)).limit = 1 ∧
    (resolveOptions (some ⟨some 1001, none, none⟩)).limit = 1000 ∧
    (∀ r, queryBySpace events spaceId options = .ok r →
      r.items.length ≤ (resolveOptions options).limit.toNat ∧
      (r.nextCursor = none ↔
        (match (resolveOptions options).order with
          | OrderDir.asc =>
            sortWith seqIdLe (events.filter (fun e =>
              e.spaceId == spaceId &&
                match (resolveOptions options).cursor with
                | none => true
                | some c =>
                  match (resolveOptions options).order with
                  | .asc => c.seq + 1 ≤ e.sequenceNumber
                  | .desc => e.sequenceNumber ≤ c.seq - 1))
          | OrderDir.desc =>
            (sortWith seqIdLe (events.filter (fun e =>
              e.spaceId == spaceId &&
                match (resolveOptions options).cursor with
                | none => true
                | some c =>
                  match (resolveOptions options).order with
                  | .asc => c.seq + 1 ≤ e.sequenceNumber
                  | .desc => e.sequenceNumber ≤ c.seq - 1))).reverse).length ≤
          (resolveOptions options).limit.toNat) ∧
      ((resolveOptions options).limit.toNat <
        (match (resolveOptions options).order with
          | OrderDir.asc =>
            sortWith seqIdLe (events.filter (fun e =>
              e.spaceId == spaceId &&
                match (resolveOptions options).cursor with
                | none => true
                | some c =>
                  match (resolveOptions options).order with
                  | .asc => c.seq + 1 ≤ e.sequenceNumber
                  | .desc => e.sequenceNumber ≤ c.seq - 1))
          | OrderDir.desc =>
            (sortWith seqIdLe (events.filter (fun e =>
              e.spaceId == spaceId &&
                match (resolveOptions options).cursor with
                | none => true
                | some c =>
                  match (resolveOptions options).order with
                  | .asc => c.seq + 1 ≤ e.sequenceNumber
                  | .desc => e.sequenceNumber ≤ c.seq - 1))).reverse).length →
        ∃ e, r.items.getLast? = some e ∧
          r.nextCursor = some (encodeCursor e.sequenceNumber e.id))) ∧
    (∀ r, queryByType events type options = .ok r →
      r.items.length ≤ (resolveOptions options).limit.toNat ∧
      (r.nextCursor = none ↔
        (orderEvents (resolveOptions options).order
          ((sortWith idLe (events.filter (fun e => e.type == type))).filter
            (cursorKeep (resolveOptions options).cursor (resolveOptions options).order))).length ≤
          (resolveOptions options).limit.toNat) ∧
      ((resolveOptions options).limit.toNat <
        (orderEvents (resolveOptions options).order
          ((sortWith idLe (events.filter (fun e => e.type == type))).filter
            (cursorKeep (resolveOptions options).cursor (resolveOptions options).order))).length →
        ∃ e, r.items.getLast? = some e ∧
          r.nextCursor = some (encodeCursor e.sequenceNumber e.id))) ∧
    (∀ r, queryByTime validTs events tsFrom tsTo options = .ok r →
      r.items.length ≤ (resolveOptions options).limit.toNat ∧
      (r.nextCursor = none ↔
        (orderEvents (resolveOptions options).order
          ((sortWith tsIdLe (events.filter (inTimeRange tsFrom tsTo))).filter
            (cursorKeep (resolveOptions options).cursor (resolveOptions options).order))).length ≤
          (resolveOptions options).limit.toNat) ∧
      ((resolveOptions options).limit.toNat <
        (orderEvents (resolveOptions options).order
          ((sortWith tsIdLe (events.filter (inTimeRange tsFrom tsTo))).filter
            (cursorKeep (resolveOptions options).cursor (resolveOptions options).order))).length →
        ∃ e, r.items.getLast? = some e ∧
          r.nextCursor = some (encodeCursor e.sequenceNumber e.id))) := by
  have hL := resolveOptions_limit_toNat_pos options
  refine ⟨rfl, rfl, rfl, by norm_num [resolveOptions], by norm_num [resolveOptions], ?_, ?_, ?_⟩
  · intro r h
    rw [queryBySpace] at h
    by_cases hc : (resolveOptions options).rawCursor.isSome ∧ (resolveOptions options).cursor = none
    · rw [if_pos hc] at h
      exact absurd h (by simp)
    · rw [if_neg hc] at h
      dsimp only at h
      injection h with h
      rw [paginate_eq] at h
      rcases pageResult_facts _ _ hL _ r h.symm with ⟨h1, _, _, h4, h5⟩
      exact ⟨h1, h4, h5⟩
  · intro r h
    rw [queryByType] at h
    by_cases hc : (resolveOptions options).rawCursor.isSome ∧ (resolveOptions options).cursor = none
    · rw [if_pos hc] at h
      exact absurd h (by simp)
    · rw [if_neg hc] at h
      dsimp only at h
      injection h with h
      rcases pageResult_facts _ _ hL _ r h.symm with ⟨h1, _, _, h4, h5⟩
      exact ⟨h1, h4, h5⟩
  · intro r h
    rw [queryByTime] at h
    by_cases hf : validTs tsFrom
    case neg =>
      rw [if_pos (by simpa using hf)] at h
      exact absurd h (by simp)
    case pos =>
      rw [if_neg (by simpa using hf)] at h
      by_cases ht : validTs tsTo
      case neg =>
        rw [if_pos (by simpa using ht)] at h
        exact absurd h (by simp)
      case pos =>
        rw [if_neg (by simpa using ht)] at h
        by_cases hc : (resolveOptions options).rawCursor.isSome ∧
            (resolveOptions options).cursor = none
        · rw [if_pos hc] at h
          exact absurd h (by simp)
        · rw [if_neg hc] at h
          dsimp only at h
          injection h with h
          rcases pageResult_facts _ _ hL _ r h.symm with ⟨h1, _, _, h4, h5⟩
          exact ⟨h1, h4, h5⟩

/-- Witness for C6: `queryBySpace` over the ten-event store with limit 3
returns three items and a `nextCursor` encoding the third event's
position. -/
theorem C6_pagination_contract_witness :
    queryBySpace sampleStore "s" (some ⟨some 3, none, none⟩) =
      .ok ⟨[sampleEvent 0, sampleEvent 1, sampleEvent 2],
        some (encodeCursor (sampleEvent 2).sequenceNumber (sampleEvent 2).id), 10⟩ ∧
    (∀ r, queryBySpace sampleStore "s" (some ⟨some 3, none, none⟩) = .ok r →
      r.items.length ≤ (resolveOptions (some ⟨some 3, none, none⟩)).limit.toNat) := by
  have hq : queryBySpace sampleStore "s" (some ⟨some 3, none, none⟩) =
      .ok ⟨[sampleEvent 0, sampleEvent 1, sampleEvent 2],
        some (encodeCursor (sampleEvent 2).sequenceNumber (sampleEvent 2).id), 10⟩ := by
    with_unfolding_all decide
  exact ⟨hq, fun r h =>
    ((C6_pagination_contract tsAlwaysValid sampleStore "s" "state_changed" "a" "b"
      (some ⟨some 3, none, none⟩)).2.2.2.2.2.1 r h).1⟩

/-! ### Archive codec lemmas -/

theorem encodeHeader_length (n : Nat) : (encodeHeader n).length = 10 := by
  simp [encodeHeader, ARCHIVE_MAGIC, u32be]

theorem u32be_recombine (n : Nat) (hn : n < 2 ^ 32) :
    n / 2 ^ 24 % 256 * 2 ^ 24 + n / 2 ^ 16 % 256 * 2 ^ 16 + n / 2 ^ 8 % 256 * 2 ^ 8 +
      n % 256 = n := by
  omega

theorem parseHeader_encodeHeader (n : Nat) (rest : List Nat) (hn : n < 2 ^ 32) :
    parseHeader (encodeHeader n ++ rest) = .ok (ARCHIVE_VERSION, n) := by
  have h1 : parseHeader (encodeHeader n ++ rest) =
      .ok (ARCHIVE_VERSION, n / 2 ^ 24 % 256 * 2 ^ 24 + n / 2 ^ 16 % 256 * 2 ^ 16 +
        n / 2 ^ 8 % 256 * 2 ^ 8 + n % 256) := rfl
  rw [h1, u32be_recombine n hn]

theorem mkArchive_length (n : Nat) (body : String) :
    (mkArchive n body).length = 10 + (utf8Bytes body).length + 64 := by
  rw [mkArchive, List.append_assoc, List.length_append, List.length_append,
    encodeHeader_length, utf8Bytes_sha256hex_length]
  omega

theorem mkArchive_body_slice (n : Nat) (body : String) :
    ((mkArchive n body).drop HEADER_SIZE).take
      ((mkArchive n body).length - FOOTER_SIZE - HEADER_SIZE) = utf8Bytes body := by
  have hdrop : (mkArchive n body).drop HEADER_SIZE =
      utf8Bytes body ++ utf8Bytes (sha256hex body) := by
    rw [mkArchive, List.append_assoc]
    rw [show HEADER_SIZE = (encodeHeader n).length from (encodeHeader_length n).symm]
    exact List.drop_left _ _
  rw [hdrop, mkArchive_length]
  rw [show 10 + (utf8Bytes body).length + 64 - FOOTER_SIZE - HEADER_SIZE =
    (utf8Bytes body).length from by rw [FOOTER_SIZE, HEADER_SIZE]; omega]
  exact List.take_left _ _

theorem mkArchive_footer_slice (n : Nat) (body : String) :
    (mkArchive n body).drop ((mkArchive n body).length - FOOTER_SIZE) =
      utf8Bytes (sha256hex body) := by
  have hlen : (mkArchive n body).length - FOOTER_SIZE =
      (encodeHeader n ++ utf8Bytes body).length := by
    rw [mkArchive_length, List.length_append, encodeHeader_length, FOOTER_SIZE]
    omega
  rw [hlen, mkArchive]
  exact List.drop_left _ _

theorem importParsePhase_mkArchive (decompress : List Nat → Option (List Nat)) (n : Nat)
    (body : String) (hdec : decompress (utf8Bytes body) = some (utf8Bytes body))
    (hascii : ∀ c ∈ body.data, c.toNat < 128) (hn : n < 2 ^ 32) :
    importParsePhase decompress (mkArchive n body) = importBodyPhase n body := by
  rw [importParsePhase]
  rw [if_neg (by rw [mkArchive_length, HEADER_SIZE, FOOTER_SIZE]; omega)]
  rw [show parseHeader (mkArchive n body) = .ok (ARCHIVE_VERSION, n) from by
    rw [mkArchive, List.append_assoc]; exact parseHeader_encodeHeader n _ hn]
  dsimp only
  rw [mkArchive_body_slice, mkArchive_footer_slice, hdec]
  dsimp only
  rw [textDecode_sha256hex, textDecode_utf8Bytes_ascii body hascii]
  rw [if_neg (by simp)]

/-! ### Importer insertion-loop lemmas -/

theorem insertEvents_spec (evs : List Event) :
    ∀ (store : List Event),
    (insertEvents store evs).1 + (insertEvents store evs).2.1 = evs.length ∧
    (∀ x ∈ store, x ∈ (insertEvents store evs).2.2) ∧
    (∀ e ∈ evs, ∃ x ∈ (insertEvents store evs).2.2, x.id = e.id) := by
  induction evs with
  | nil => intro store; exact ⟨rfl, fun x hx => hx, by simp⟩
  | cons e rest ih =>
    intro store
    by_cases hdup : store.any (fun x => x.id == e.id)
    · have hrw : insertEvents store (e :: rest) =
          ((insertEvents store rest).1, (insertEvents store rest).2.1 + 1,
            (insertEvents store rest).2.2) := by
        rw [insertEvents, if_pos hdup]
      rcases ih store with ⟨h1, h2, h3⟩
      rw [hrw]
      refine ⟨by simpa using by omega, h2, ?_⟩
      intro t ht
      rcases List.mem_cons.mp ht with rfl | ht
      · rcases List.any_eq_true.mp hdup with ⟨x, hx, hxe⟩
        exact ⟨x, h2 x hx, by simpa using hxe⟩
      · exact h3 t ht
    · have hrw : insertEvents store (e :: rest) =
          ((insertEvents (store ++ [e]) rest).1 + 1, (insertEvents (store ++ [e]) rest).2.1,
            (insertEvents (store ++ [e]) rest).2.2) := by
        rw [insertEvents, if_neg hdup]
      rcases ih (store ++ [e]) with ⟨h1, h2, h3⟩
      rw [hrw]
      refine ⟨by simpa using by omega, ?_, ?_⟩
      · intro x hx
        exact h2 x (List.mem_append_left _ hx)
      · intro t ht
        rcases List.mem_cons.mp ht with rfl | ht
        · exact ⟨t, h2 t (List.mem_append_right _ (by simp)), rfl⟩
        · exact h3 t ht

theorem insertEvents_all_present (evs : List Event) :
    ∀ (store : List Event), (∀ e ∈ evs, ∃ x ∈ store, x.id = e.id) →
    insertEvents store evs = (0, evs.length, store) := by
  induction evs with
  | nil => intro store _; rfl
  | cons e rest ih =>
    intro store h
    have hdup : store.any (fun x => x.id == e.id) = true := by
      rcases h e (by simp) with ⟨x, hx, hxe⟩
      exact List.any_eq_true.mpr ⟨x, hx, by simpa using hxe⟩
    rw [insertEvents, if_pos hdup, ih store (fun t ht => h t (List.mem_cons_of_mem e ht))]
    rfl

/-- C8 (amended): re-importing the same archive bytes into the store a
successful import produced succeeds, imports nothing, leaves the store
unchanged, and reports as `skippedDuplicates` the archive's full count of
valid events — the first import's `importedEvents + skippedDuplicates`
(equal to N, the number inserted, exactly when the first import skipped
none). -/
theorem C8_reimport_idempotent (decompress : List Nat → Option (List Nat))
    (store : List Event) (archive : List Nat) (r : ImportReport) (store' : List Event)
    (h : importArchive decompress store archive = (.ok r, store')) :
    importArchive decompress store' archive =
      (.ok ⟨0, r.importedEvents + r.skippedDuplicates, r.errors⟩, store') := by
  rcases hp : importParsePhase decompress archive with e | ⟨events, errs⟩
  · rw [importArchive, hp] at h
    exact absurd h (by simp)
  · rw [importArchive, hp] at h
    dsimp only at h
    rw [importArchive, hp]
    dsimp only
    rcases insertEvents_spec events store with ⟨h1, _, h3⟩
    have hr : r = ⟨(insertEvents store events).1, (insertEvents store events).2.1, errs⟩ := by
      have := congrArg Prod.fst h
      simpa using this.symm
    have hst : store' = (insertEvents store events).2.2 := by
      have := congrArg Prod.snd h
      simpa using this.symm
    have hall : ∀ e ∈ events, ∃ x ∈ store', x.id = e.id := by
      rw [hst]; exact h3
    rw [insertEvents_all_present events store' hall]
    rw [hr, hst]
    have hn : (insertEvents store events).1 + (insertEvents store events).2.1 = events.length :=
      h1
    simp [hn]

theorem forged_parse :
    importParsePhase idDecompress forgedArchive = .ok ([forgedEvent1, forgedEvent2], []) := by
  have hascii : ∀ c ∈ forgedBody.data, c.toNat < 128 := by decide
  rw [show forgedArchive = mkArchive 2 forgedBody from rfl]
  rw [importParsePhase_mkArchive idDecompress 2 forgedBody rfl hascii (by norm_num)]
  with_unfolding_all rfl

/-- Counterexample to C8 as stated: an archive holding two events, one of
which is already in the store. The first import succeeds and inserts
`N = 1` event (skipping 1 duplicate); re-importing the same bytes returns
`skippedDuplicates = 2`, not `N = 1`. -/
theorem C8_reimport_counterexample :
    importArchive idDecompress [forgedEvent1] forgedArchive =
      (.ok ⟨1, 1, []⟩, [forgedEvent1, forgedEvent2]) ∧
    importArchive idDecompress [forgedEvent1, forgedEvent2] forgedArchive =
      (.ok ⟨0, 2, []⟩, [forgedEvent1, forgedEvent2]) ∧
    (2 : Nat) ≠ 1 := by
  refine ⟨?_, ?_, by decide⟩
  · rw [importArchive, forged_parse]
    with_unfolding_all decide
  · rw [importArchive, forged_parse]
    with_unfolding_all decide

/-- Witness for the amended C8: a first import of the forged archive into
a store already holding one of its events, then the re-import via the
amended theorem. -/
theorem C8_reimport_idempotent_witness :
    importArchive idDecompress [forgedEvent1] forgedArchive =
      (.ok ⟨1, 1, []⟩, [forgedEvent1, forgedEvent2]) ∧
    importArchive idDecompress [forgedEvent1, forgedEvent2] forgedArchive =
      (.ok ⟨0, 1 + 1, []⟩, [forgedEvent1, forgedEvent2]) := by
  have h1 : importArchive idDecompress [forgedEvent1] forgedArchive =
      (.ok ⟨1, 1, []⟩, [forgedEvent1, forgedEvent2]) := by
    rw [importArchive, forged_parse]
    with_unfolding_all decide
  exact ⟨h1, C8_reimport_idempotent idDecompress [forgedEvent1] forgedArchive
    ⟨1, 1, []⟩ [forgedEvent1, forgedEvent2] h1⟩

/-- C10: the importer never recomputes per-event SHA-256 hashes. The
forged archive's events form a self-consistent `previousHash` chain but
carry hashes that are not the SHA-256 of their canonical serialization
(they are not even 64 characters); `importArchive` nevertheless succeeds
and inserts both events. -/
theorem C10_import_accepts_forged_hashes :
    (importArchive idDecompress [] forgedArchive).1 = .ok ⟨2, 0, []⟩ ∧
    (importArchive idDecompress [] forgedArchive).2 = [forgedEvent1, forgedEvent2] ∧
    verifyChainLinks [forgedEvent1, forgedEvent2] = -1 ∧
    ∀ e ∈ [forgedEvent1, forgedEvent2],
      e.hash ≠ computeEventHash e.id e.type e.spaceId e.timestamp e.sequenceNumber
        e.previousHash e.version e.payload := by
  refine ⟨?_, ?_, by decide, ?_⟩
  · rw [importArchive, forged_parse]
    with_unfolding_all decide
  · rw [importArchive, forged_parse]
    with_unfolding_all decide
  · intro e he hcon
    have hlen := congrArg String.length hcon
    have h64 : (computeEventHash e.id e.type e.spaceId e.timestamp e.sequenceNumber
        e.previousHash e.version e.payload).length = 64 := sha256hex_length _
    rw [h64] at hlen
    rcases List.mem_cons.mp he with rfl | he
    · exact absurd hlen (by decide)
    · rcases List.mem_cons.mp he with rfl | he
      · exact absurd hlen (by decide)
      · simp at he

/-- C7: a successful export is laid out as the 10-byte header — the magic
bytes `RBLOG`, the version byte 1, and the exported event count as an
unsigned 32-bit big-endian integer — followed by the deflate-compressed
JSON body and 64 trailing bytes that are the lowercase-hex ASCII SHA-256
of the uncompressed body; the total size is `10 + N + 64`. -/
theorem C7_export_layout (validTs : String → Bool) (compress : List Nat → List Nat)
    (events : List Event) (spaceId beforeDate : String) (bs : List Nat)
    (h : exportArchive validTs compress events spaceId beforeDate = .ok bs) :
    ∃ exported : List Event,
      exported = (sortWith seqIdLe (events.filter (fun e => e.spaceId == spaceId))).filter
        (fun e => e.timestamp < beforeDate) ∧
      bs = encodeHeader exported.length ++ compress (utf8Bytes (archiveBody exported)) ++
        utf8Bytes (sha256hex (archiveBody exported)) ∧
      bs.length = HEADER_SIZE + (compress (utf8Bytes (archiveBody exported))).length +
        FOOTER_SIZE ∧
      bs.take 5 = ARCHIVE_MAGIC ∧ ARCHIVE_MAGIC = [0x52, 0x42, 0x4C, 0x4F, 0x47] ∧
      (bs.drop 5).take 1 = [ARCHIVE_VERSION] ∧ ARCHIVE_VERSION = 1 ∧
      (bs.drop 6).take 4 = u32be exported.length ∧
      bs.drop (HEADER_SIZE + (compress (utf8Bytes (archiveBody exported))).length) =
        (sha256hex (archiveBody exported)).data.map Char.toNat ∧
      (sha256hex (archiveBody exported)).length = 64 ∧
      ∀ c ∈ (sha256hex (archiveBody exported)).data, c ∈ hexChars := by
  rw [exportArchive] at h
  by_cases hv : validTs beforeDate
  case neg =>
    rw [if_pos (by simpa using hv)] at h
    exact absurd h (by simp)
  case pos =>
    rw [if_neg (by simpa using hv)] at h
    dsimp only at h
    set exported := (sortWith seqIdLe (events.filter (fun e => e.spaceId == spaceId))).filter
      (fun e => e.timestamp < beforeDate) with hexp
    by_cases hb : (if exported.length > 0 then verifyChainLinks exported else -1) ≥ 0
    · rw [if_pos hb] at h
      exact absurd h (by simp)
    · rw [if_neg hb] at h
      injection h with hbs
      refine ⟨exported, rfl, hbs.symm, ?_, ?_, by decide, ?_, by decide, ?_, ?_,
        sha256hex_length _, sha256hex_chars _⟩
      · rw [← hbs, List.append_assoc, List.length_append, List.length_append,
          encodeHeader_length, utf8Bytes_sha256hex_length, HEADER_SIZE, FOOTER_SIZE]
        omega
      · rw [← hbs]
        rw [show encodeHeader exported.length ++ compress (utf8Bytes (archiveBody exported)) ++
            utf8Bytes (sha256hex (archiveBody exported)) =
          ARCHIVE_MAGIC ++ ([ARCHIVE_VERSION] ++ u32be exported.length ++
            compress (utf8Bytes (archiveBody exported)) ++
            utf8Bytes (sha256hex (archiveBody exported))) from by
          simp [encodeHeader, List.append_assoc]]
        rw [show (5 : Nat) = ARCHIVE_MAGIC.length from rfl]
        exact List.take_left _ _
      · rw [← hbs]
        rw [show encodeHeader exported.length ++ compress (utf8Bytes (archiveBody exported)) ++
            utf8Bytes (sha256hex (archiveBody exported)) =
          ARCHIVE_MAGIC ++ ([ARCHIVE_VERSION] ++ (u32be exported.length ++
            (compress (utf8Bytes (archiveBody exported)) ++
              utf8Bytes (sha256hex (archiveBody exported))))) from by
          simp [encodeHeader, List.append_assoc]]
        rw [show (5 : Nat) = ARCHIVE_MAGIC.length from rfl, List.drop_left]
        rw [show (1 : Nat) = [ARCHIVE_VERSION].length from rfl]
        exact List.take_left _ _
      · rw [← hbs]
        rw [show encodeHeader exported.length ++ compress (utf8Bytes (archiveBody exported)) ++
            utf8Bytes (sha256hex (archiveBody exported)) =
          (ARCHIVE_MAGIC ++ [ARCHIVE_VERSION]) ++ (u32be exported.length ++
            (compress (utf8Bytes (archiveBody exported)) ++
              utf8Bytes (sha256hex (archiveBody exported)))) from by
          simp [encodeHeader, List.append_assoc]]
        rw [show (6 : Nat) = (ARCHIVE_MAGIC ++ [ARCHIVE_VERSION]).length from rfl,
          List.drop_left]
        rw [show (4 : Nat) = (u32be exported.length).length from by simp [u32be]]
        exact List.take_left _ _
      · rw [← hbs]
        rw [show HEADER_SIZE + (compress (utf8Bytes (archiveBody exported))).length =
          (encodeHeader exported.length ++
            compress (utf8Bytes (archiveBody exported))).length from by
          rw [List.length_append, encodeHeader_length, HEADER_SIZE]]
        rw [List.drop_left]
        exact utf8Bytes_ascii _ (sha256hex_ascii _)

/-- Witness for C7: exporting an empty space with the identity compression
satisfies the layout theorem's hypotheses definitionally. -/
theorem C7_export_layout_witness :
    exportArchive tsAlwaysValid idCompress [] "s" "2099-01-01T00:00:00Z" =
      .ok (encodeHeader 0 ++ idCompress (utf8Bytes (archiveBody [])) ++
        utf8Bytes (sha256hex (archiveBody []))) ∧
    ∃ exported : List Event,
      exported = (sortWith seqIdLe (([] : List Event).filter (fun e => e.spaceId == "s"))).filter
        (fun e => e.timestamp < "2099-01-01T00:00:00Z") ∧
      encodeHeader 0 ++ idCompress (utf8Bytes (archiveBody [])) ++
          utf8Bytes (sha256hex (archiveBody [])) =
        encodeHeader exported.length ++ idCompress (utf8Bytes (archiveBody exported)) ++
          utf8Bytes (sha256hex (archiveBody exported)) ∧
      (encodeHeader 0 ++ idCompress (utf8Bytes (archiveBody [])) ++
          utf8Bytes (sha256hex (archiveBody []))).length =
        HEADER_SIZE + (idCompress (utf8Bytes (archiveBody exported))).length + FOOTER_SIZE ∧
      (encodeHeader 0 ++ idCompress (utf8Bytes (archiveBody [])) ++
          utf8Bytes (sha256hex (archiveBody []))).take 5 = ARCHIVE_MAGIC ∧
      ARCHIVE_MAGIC = [0x52, 0x42, 0x4C, 0x4F, 0x47] ∧
      ((encodeHeader 0 ++ idCompress (utf8Bytes (archiveBody [])) ++
          utf8Bytes (sha256hex (archiveBody []))).drop 5).take 1 = [ARCHIVE_VERSION] ∧
      ARCHIVE_VERSION = 1 ∧
      ((encodeHeader 0 ++ idCompress (utf8Bytes (archiveBody [])) ++
          utf8Bytes (sha256hex (archiveBody []))).drop 6).take 4 = u32be exported.length ∧
      (encodeHeader 0 ++ idCompress (utf8Bytes (archiveBody [])) ++
          utf8Bytes (sha256hex (archiveBody []))).drop
          (HEADER_SIZE + (idCompress (utf8Bytes (archiveBody exported))).length) =
        (sha256hex (archiveBody exported)).data.map Char.toNat ∧
      (sha256hex (archiveBody exported)).length = 64 ∧
      ∀ c ∈ (sha256hex (archiveBody exported)).data, c ∈ hexChars := by
  have hq : exportArchive tsAlwaysValid idCompress [] "s" "2099-01-01T00:00:00Z" =
      .ok (encodeHeader 0 ++ idCompress (utf8Bytes (archiveBody [])) ++
        utf8Bytes (sha256hex (archiveBody []))) := rfl
  exact ⟨hq, C7_export_layout tsAlwaysValid idCompress [] "s" "2099-01-01T00:00:00Z" _ hq⟩

/-- Witness for C9: a report of 700 estimated bytes against a 1000-byte
budget classifies as EXPORT_PROMPT with ratio `0.7`. -/
theorem C9_pressure_classifier_witness :
    ((0 : ℚ) < 1000) ∧
    getStoragePressure (makeReport 700) 1000 =
      ⟨specLevel (min ((makeReport 700).estimatedBytes / 1000) 1),
       min ((makeReport 700).estimatedBytes / 1000) 1,
       recommendationFor (specLevel (min ((makeReport 700).estimatedBytes / 1000) 1))⟩ ∧
    getStoragePressure (makeReport 700) 1000 =
      ⟨.EXPORT_PROMPT, 0.7,
       "Storage usage exceeds 70%. Prompt user to export old data to archives."⟩ :=
  ⟨by norm_num,
   (C9_pressure_classifier (makeReport 700) 1000).2.1 (by norm_num),
   by with_unfolding_all decide⟩

end RiLog
